import Mathlib

/-!
Verification development for the unified activity-feed platform
(`astropay_challenge`): a shallow embedding, in Lean 4, of the cursor codec
(`app/utils/cursor.py`), the relational repository
(`app/repositories/transaction_repository.py`), the query service
(`app/services/transaction_service.py`), the circuit breaker
(`app/middleware/circuit_breaker.py`), the Kafka message consumer
(`app/services/message_consumer.py`) and the transaction read route
(`app/api/routes/transactions.py`), together with theorems settling the
behavioural claims about those components.

Machine conventions used throughout the embedding:
* Python `str` is modelled by `String` / `List Char`; `bytes` by `List Nat`
  (each entry `< 256`).
* Python `datetime` is modelled by `PyDatetime` below (timezone offset in
  whole minutes, the form produced by `timezone(timedelta(minutes=m))`).
* Fallible Python code (code that raises, or that returns `None`) is
  modelled with `Option`.
-/

/-! ### Decimal digit printing and parsing

`datetime.isoformat` prints zero-padded decimal fields and
`datetime.fromisoformat` reads them back from fixed-width positions. -/

/-- The character for a single decimal digit (`0 ≤ n ≤ 9`). -/
def digitChar10 (n : Nat) : Char := Char.ofNat (48 + n)

/-- Two-digit zero-padded decimal, as in `%02d`. -/
def pad2 (n : Nat) : List Char := [digitChar10 (n / 10), digitChar10 (n % 10)]

/-- Four-digit zero-padded decimal, as in `%04d`. -/
def pad4 (n : Nat) : List Char :=
  [digitChar10 (n / 1000), digitChar10 (n / 100 % 10), digitChar10 (n / 10 % 10),
   digitChar10 (n % 10)]

/-- Six-digit zero-padded decimal, as in `%06d` (microseconds). -/
def pad6 (n : Nat) : List Char :=
  [digitChar10 (n / 100000), digitChar10 (n / 10000 % 10), digitChar10 (n / 1000 % 10),
   digitChar10 (n / 100 % 10), digitChar10 (n / 10 % 10), digitChar10 (n % 10)]

/-- Parse one decimal digit character. -/
def parseDigit (c : Char) : Option Nat :=
  if 48 ≤ c.toNat ∧ c.toNat ≤ 57 then some (c.toNat - 48) else none

/-- Parse exactly two decimal digits, returning the value and the rest. -/
def parse2 : List Char → Option (Nat × List Char)
  | c1 :: c2 :: rest => do
    let d1 ← parseDigit c1
    let d2 ← parseDigit c2
    some (d1 * 10 + d2, rest)
  | _ => none

/-- Parse exactly four decimal digits, returning the value and the rest. -/
def parse4 : List Char → Option (Nat × List Char)
  | c1 :: c2 :: c3 :: c4 :: rest => do
    let d1 ← parseDigit c1
    let d2 ← parseDigit c2
    let d3 ← parseDigit c3
    let d4 ← parseDigit c4
    some (((d1 * 10 + d2) * 10 + d3) * 10 + d4, rest)
  | _ => none

/-- Parse exactly six decimal digits, returning the value and the rest. -/
def parse6 : List Char → Option (Nat × List Char)
  | c1 :: c2 :: c3 :: c4 :: c5 :: c6 :: rest => do
    let d1 ← parseDigit c1
    let d2 ← parseDigit c2
    let d3 ← parseDigit c3
    let d4 ← parseDigit c4
    let d5 ← parseDigit c5
    let d6 ← parseDigit c6
    some (((((d1 * 10 + d2) * 10 + d3) * 10 + d4) * 10 + d5) * 10 + d6, rest)
  | _ => none

/-- Consume one expected character. -/
def expectChar (c : Char) : List Char → Option (List Char)
  | x :: rest => if x = c then some rest else none
  | [] => none

/-! ### Python `datetime` -/

/-- A Python `datetime` value.  `tzoffset` is the UTC offset in whole minutes
(`none` for a naive datetime); offsets produced by
`timezone(timedelta(minutes=m))` are whole minutes, which is the resolution
this embedding models. -/
structure PyDatetime where
  year : Nat
  month : Nat
  day : Nat
  hour : Nat
  minute : Nat
  second : Nat
  microsecond : Nat
  tzoffset : Option Int
  deriving DecidableEq, Repr

/-- Number of days in a month, with Gregorian leap years (as validated by the
Python `datetime` constructor). -/
def daysInMonth (year month : Nat) : Nat :=
  if month = 2 then
    if year % 4 = 0 ∧ (year % 100 ≠ 0 ∨ year % 400 = 0) then 29 else 28
  else if month = 4 ∨ month = 6 ∨ month = 9 ∨ month = 11 then 30
  else 31

/-- The field ranges accepted by the Python `datetime` constructor. -/
def PyDatetime.Valid (d : PyDatetime) : Prop :=
  1 ≤ d.year ∧ d.year ≤ 9999 ∧
  1 ≤ d.month ∧ d.month ≤ 12 ∧
  1 ≤ d.day ∧ d.day ≤ daysInMonth d.year d.month ∧
  d.hour ≤ 23 ∧ d.minute ≤ 59 ∧ d.second ≤ 59 ∧ d.microsecond ≤ 999999 ∧
  (∀ o, d.tzoffset = some o → o.natAbs ≤ 1439)

instance (d : PyDatetime) : Decidable d.Valid := by
  unfold PyDatetime.Valid
  exact inferInstance

/-- Days since an arbitrary fixed epoch for a Gregorian civil date
(Howard Hinnant's `days_from_civil` algorithm).  Used only to give
timestamps a total instant order, matching how `timestamptz` values
compare in the relational store. -/
def daysFromCivil (y m d : Nat) : Int :=
  let y' : Int := if m ≤ 2 then (y : Int) - 1 else (y : Int)
  let era : Int := (if 0 ≤ y' then y' else y' - 399) / 400
  let yoe : Int := y' - era * 400
  let m' : Int := (m : Int)
  let doy : Int := (153 * (if 2 < m then m' - 3 else m' + 9) + 2) / 5 + (d : Int) - 1
  let doe : Int := yoe * 365 + yoe / 4 - yoe / 100 + doy
  era * 146097 + doe - 719468

/-- The absolute instant of a datetime, in microseconds since the epoch
(UTC).  Aware datetimes and `timestamptz` columns compare by instant. -/
def PyDatetime.instant (d : PyDatetime) : Int :=
  let offsetMinutes : Int := d.tzoffset.getD 0
  ((daysFromCivil d.year d.month d.day * 24 + (d.hour : Int)) * 60 + (d.minute : Int)
      - offsetMinutes) * 60000000
    + (d.second : Int) * 1000000 + (d.microsecond : Int)

/-- `datetime.isoformat()`:
`YYYY-MM-DDTHH:MM:SS[.ffffff][±HH:MM]` — the fractional part appears iff
`microsecond ≠ 0`, the offset iff the datetime is aware. -/
def isoformatChars (d : PyDatetime) : List Char :=
  pad4 d.year ++ '-' ::
    (pad2 d.month ++ '-' ::
      (pad2 d.day ++ 'T' ::
        (pad2 d.hour ++ ':' ::
          (pad2 d.minute ++ ':' ::
            (pad2 d.second ++
              ((if d.microsecond = 0 then [] else '.' :: pad6 d.microsecond) ++
                (match d.tzoffset with
                 | none => []
                 | some o =>
                   (if 0 ≤ o then '+' else '-') ::
                     (pad2 (o.natAbs / 60) ++ ':' :: pad2 (o.natAbs % 60)))))))))

/-- Parse the optional `±HH:MM` timezone suffix (the whole remaining
input must be consumed, as `datetime.fromisoformat` requires). -/
def parseTzSuffix : List Char → Option (Option Int)
  | [] => some none
  | sign :: rest =>
    if sign = '+' ∨ sign = '-' then do
      let (oh, r1) ← parse2 rest
      let r2 ← expectChar ':' r1
      let (om, r3) ← parse2 r2
      if r3 = [] ∧ om ≤ 59 ∧ oh * 60 + om ≤ 1439 then
        some (some (if sign = '+' then (oh * 60 + om : Int) else -(oh * 60 + om : Int)))
      else none
    else none

/-- Parse the optional `.ffffff` fractional-seconds part. -/
def parseFracSuffix : List Char → Option (Nat × List Char)
  | [] => some (0, [])
  | c :: rest => if c = '.' then parse6 rest else some (0, c :: rest)

/-- `datetime.fromisoformat` on the output format of `isoformat`:
fixed-width date and time fields, optional 6-digit fraction, optional
`±HH:MM` offset, with the constructor's range validation.  (CPython also
accepts some laxer spellings — 3-digit fractions, other separators —
which cursors produced by this codebase never contain; on those this
model is stricter, never laxer, than the source.) -/
def fromisoformatChars (l : List Char) : Option PyDatetime := do
  let (y, r1) ← parse4 l
  let r2 ← expectChar '-' r1
  let (mo, r3) ← parse2 r2
  let r4 ← expectChar '-' r3
  let (d, r5) ← parse2 r4
  let r6 ← expectChar 'T' r5
  let (h, r7) ← parse2 r6
  let r8 ← expectChar ':' r7
  let (mi, r9) ← parse2 r8
  let r10 ← expectChar ':' r9
  let (s, r11) ← parse2 r10
  let (us, r12) ← parseFracSuffix r11
  let tz ← parseTzSuffix r12
  let dt : PyDatetime := ⟨y, mo, d, h, mi, s, us, tz⟩
  if dt.Valid then some dt else none

/-! ### JSON (`json.dumps` / `json.loads`)

Only the fragment exercised by the cursor codec is embedded: objects whose
values are strings.  `json.dumps(…, sort_keys=True)` with its default
`ensure_ascii=True` and default separators prints
`{"k1": "v1", "k2": "v2"}` with every non-printable-ASCII character
escaped, so the printed form is always ASCII. -/

/-- Lowercase hexadecimal digit character. -/
def hexDigitCharLower (n : Nat) : Char :=
  if n < 10 then Char.ofNat (48 + n) else Char.ofNat (87 + n)

/-- Four lowercase hex digits, as in a `\uXXXX` escape. -/
def hex4 (n : Nat) : List Char :=
  [hexDigitCharLower (n / 4096 % 16), hexDigitCharLower (n / 256 % 16),
   hexDigitCharLower (n / 16 % 16), hexDigitCharLower (n % 16)]

/-- `json.dumps` escaping of one character with `ensure_ascii=True`:
`"` and `\` get two-character escapes, the named control escapes are used
for BS/TAB/LF/FF/CR, every other character outside printable ASCII
(`0x20`–`0x7e`) becomes `\uXXXX` (a surrogate pair above `0xffff`). -/
def jsonEscapeChar (c : Char) : List Char :=
  let n := c.toNat
  if c = '"' then ['\\', '"']
  else if c = '\\' then ['\\', '\\']
  else if n = 8 then ['\\', 'b']
  else if n = 9 then ['\\', 't']
  else if n = 10 then ['\\', 'n']
  else if n = 12 then ['\\', 'f']
  else if n = 13 then ['\\', 'r']
  else if 32 ≤ n ∧ n ≤ 126 then [c]
  else if n < 65536 then '\\' :: 'u' :: hex4 n
  else
    let m := n - 65536
    '\\' :: 'u' :: hex4 (55296 + m / 1024) ++ '\\' :: 'u' :: hex4 (56320 + m % 1024)

/-- A JSON string literal: quote, escaped body, quote. -/
def jsonStringLit (s : List Char) : List Char :=
  '"' :: (s.map jsonEscapeChar).flatten ++ ['"']

/-- The members of a JSON object, joined by `", "` with `": "` after each
key (the default `json.dumps` separators). -/
def jsonMembers : List (List Char × List Char) → List Char
  | [] => []
  | [(k, v)] => jsonStringLit k ++ ':' :: ' ' :: jsonStringLit v
  | (k, v) :: rest => jsonStringLit k ++ ':' :: ' ' :: jsonStringLit v ++ ',' :: ' ' :: jsonMembers rest

/-- `json.dumps` of an object with string values, keys given already in
sorted order (the codec passes `sort_keys=True`). -/
def jsonDumpsPairs (pairs : List (List Char × List Char)) : List Char :=
  '{' :: jsonMembers pairs ++ ['}']

/-- JSON whitespace accepted between tokens by `json.loads`. -/
def isJsonWs (c : Char) : Bool :=
  c = ' ' ∨ c = '\t' ∨ c = '\n' ∨ c = '\r'

/-- Skip JSON whitespace. -/
def skipWs (l : List Char) : List Char := l.dropWhile isJsonWs

/-- Parse one hex digit (either case), as in a `\uXXXX` escape. -/
def parseHexDigit (c : Char) : Option Nat :=
  let n := c.toNat
  if 48 ≤ n ∧ n ≤ 57 then some (n - 48)
  else if 97 ≤ n ∧ n ≤ 102 then some (n - 87)
  else if 65 ≤ n ∧ n ≤ 70 then some (n - 55)
  else none

/-- The single-character escapes of `json.loads` (the body parser below
handles `\uXXXX`).  Surrogate escapes are only accepted as full pairs
(CPython additionally tolerates lone surrogates, which no value produced
by this codebase contains; there this model is stricter).  Raw control
characters are rejected, as by `json.loads` with its default
`strict=True`. -/
def jsonSimpleEscape (e : Char) : Option Char :=
  if e = '"' then some '"'
  else if e = '\\' then some '\\'
  else if e = '/' then some '/'
  else if e = 'b' then some (Char.ofNat 8)
  else if e = 'f' then some (Char.ofNat 12)
  else if e = 'n' then some (Char.ofNat 10)
  else if e = 'r' then some (Char.ofNat 13)
  else if e = 't' then some (Char.ofNat 9)
  else none

/-- The four hex digits of a `\uXXXX` escape. -/
def parseHex4 : List Char → Option (Nat × List Char)
  | h1 :: h2 :: h3 :: h4 :: rest => do
    let d1 ← parseHexDigit h1
    let d2 ← parseHexDigit h2
    let d3 ← parseHexDigit h3
    let d4 ← parseHexDigit h4
    some (((d1 * 16 + d2) * 16 + d3) * 16 + d4, rest)
  | _ => none

/-- Parse the body of a JSON string after the opening quote, decoding
escapes, up to the closing quote.  `fuel` bounds the recursion; each step
consumes at least one character, so `length + 1` fuel is always enough. -/
def parseJsonStringBodyFuel : Nat → List Char → Option (List Char × List Char)
  | 0, _ => none
  | fuel + 1, l =>
    match l with
    | [] => none
    | c :: rest =>
      if c = '"' then some ([], rest)
      else if c = '\\' then
        match rest with
        | [] => none
        | e :: rest1 =>
          if e = 'u' then
            match parseHex4 rest1 with
            | none => none
            | some (n, rest2) =>
              if 55296 ≤ n ∧ n ≤ 56319 then
                match rest2 with
                | b1 :: b2 :: rest2' =>
                  if b1 = '\\' ∧ b2 = 'u' then
                    match parseHex4 rest2' with
                    | none => none
                    | some (m, rest3) =>
                      if 56320 ≤ m ∧ m ≤ 57343 then do
                        let (s, r) ← parseJsonStringBodyFuel fuel rest3
                        some (Char.ofNat (65536 + (n - 55296) * 1024 + (m - 56320)) :: s, r)
                      else none
                  else none
                | _ => none
              else if 56320 ≤ n ∧ n ≤ 57343 then none
              else do
                let (s, r) ← parseJsonStringBodyFuel fuel rest2
                some (Char.ofNat n :: s, r)
          else do
            let c2 ← jsonSimpleEscape e
            let (s, r) ← parseJsonStringBodyFuel fuel rest1
            some (c2 :: s, r)
      else if c.toNat < 32 then none
      else do
        let (s, r) ← parseJsonStringBodyFuel fuel rest
        some (c :: s, r)

/-- Parse the body of a JSON string after the opening quote (the fuel
`length + 1` never runs out, so this is total on its domain exactly as
the source's scanner is). -/
def parseJsonStringBody (l : List Char) : Option (List Char × List Char) :=
  parseJsonStringBodyFuel (l.length + 1) l

/-- Parse a complete JSON string literal. -/
def parseJsonString : List Char → Option (List Char × List Char)
  | c :: rest => if c = '"' then parseJsonStringBody rest else none
  | [] => none

/-- Parse the members of a JSON object (string values only), after the
opening brace, up to and including the closing brace.  `fuel` bounds the
recursion; each member consumes at least one character, so `fuel ≥ length`
is always enough. -/
def parseJsonMembers : Nat → List Char → Option (List (List Char × List Char) × List Char)
  | 0, _ => none
  | fuel + 1, l => do
    let (k, r1) ← parseJsonString (skipWs l)
    let r2 ← expectChar ':' (skipWs r1)
    let (v, r3) ← parseJsonString (skipWs r2)
    match skipWs r3 with
    | c :: r4 =>
      if c = ',' then do
        let (rest, r5) ← parseJsonMembers fuel r4
        some ((k, v) :: rest, r5)
      else if c = '}' then some ([(k, v)], r4)
      else none
    | [] => none

/-- `json.loads` restricted to a single object with string values: the
whole input must be one object, with nothing but whitespace after it. -/
def parseJsonObject (l : List Char) : Option (List (List Char × List Char)) :=
  match skipWs l with
  | c :: r =>
    if c = '{' then
      match skipWs r with
      | c2 :: r2 =>
        if c2 = '}' then (if skipWs r2 = [] then some [] else none)
        else
          match parseJsonMembers l.length (c2 :: r2) with
          | some (pairs, r1) => if skipWs r1 = [] then some pairs else none
          | none => none
      | [] => none
    else none
  | [] => none

/-- Lookup in a parsed JSON object.  A Python `dict` built by `json.loads`
keeps the last value for a repeated key, hence the reversed search. -/
def jsonLookup (pairs : List (List Char × List Char)) (k : List Char) : Option (List Char) :=
  (pairs.reverse.lookup k)

/-! ### URL-safe base64 (`base64.urlsafe_b64encode` / `urlsafe_b64decode`) -/

/-- The URL-safe base64 alphabet: `A–Z a–z 0–9 - _`. -/
def b64Alphabet : List Char :=
  ['A','B','C','D','E','F','G','H','I','J','K','L','M','N','O','P','Q','R','S','T','U','V','W','X','Y','Z',
   'a','b','c','d','e','f','g','h','i','j','k','l','m','n','o','p','q','r','s','t','u','v','w','x','y','z',
   '0','1','2','3','4','5','6','7','8','9','-','_']

/-- Character for a sextet value (`< 64`). -/
def b64EncChar (n : Nat) : Char := b64Alphabet.getD n 'A'

/-- Sextet value of an alphabet character. -/
def b64DecChar (c : Char) : Option Nat := b64Alphabet.findIdx? (· = c)

/-- `base64.urlsafe_b64encode`: bytes to characters, three bytes per four
characters, `=`-padded. -/
def b64encode : List Nat → List Char
  | [] => []
  | [a] => [b64EncChar (a / 4), b64EncChar (a % 4 * 16), '=', '=']
  | [a, b] => [b64EncChar (a / 4), b64EncChar (a % 4 * 16 + b / 16), b64EncChar (b % 16 * 4), '=']
  | a :: b :: c :: rest =>
    b64EncChar (a / 4) :: b64EncChar (a % 4 * 16 + b / 16) ::
      b64EncChar (b % 16 * 4 + c / 64) :: b64EncChar (c % 64) :: b64encode rest

/-- `base64.urlsafe_b64decode`: four characters per three bytes, with `=`
padding allowed only at the end.  Like `binascii`, discarded padding bits
are not validated.  (CPython additionally skips characters outside the
standard alphabet before decoding; inputs exercising that laxness never
arise from `encode_cursor`, and on them this model is stricter, never
laxer, than the source.) -/
def b64decode : List Char → Option (List Nat)
  | [] => some []
  | c1 :: c2 :: c3 :: c4 :: rest =>
    if c3 = '=' ∧ c4 = '=' ∧ rest = [] then do
      let s1 ← b64DecChar c1
      let s2 ← b64DecChar c2
      some [s1 * 4 + s2 / 16]
    else if c4 = '=' ∧ rest = [] then do
      let s1 ← b64DecChar c1
      let s2 ← b64DecChar c2
      let s3 ← b64DecChar c3
      some [s1 * 4 + s2 / 16, s2 % 16 * 16 + s3 / 4]
    else do
      let s1 ← b64DecChar c1
      let s2 ← b64DecChar c2
      let s3 ← b64DecChar c3
      let s4 ← b64DecChar c4
      let tail ← b64decode rest
      some ((s1 * 4 + s2 / 16) :: (s2 % 16 * 16 + s3 / 4) :: (s3 % 4 * 64 + s4) :: tail)
  | _ => none

/-! ### The cursor codec (`app/utils/cursor.py`) -/

/-- The decoded form of a cursor: the `id` and `created_at` of the record
it points at. -/
structure Cursor where
  id : String
  created_at : PyDatetime
  deriving DecidableEq, Repr

/-- `str.encode()` on the ASCII output of `json.dumps` (with its default
`ensure_ascii=True` every emitted character is ASCII, so UTF-8 encoding is
the identity on code points). -/
def asciiEncode (l : List Char) : List Nat := l.map Char.toNat

/-- `bytes.decode()` restricted to ASCII input — all the codec ever
produces.  Non-ASCII bytes fail here (CPython would decode valid UTF-8;
no cursor from `encode_cursor` contains any, and on such inputs this model
is stricter, never laxer, than the source). -/
def asciiDecode (bs : List Nat) : Option (List Char) :=
  if bs.all (· < 128) then some (bs.map Char.ofNat) else none

/-- `encode_cursor(transaction_id, created_at)`:
canonical JSON of `{"created_at": created_at.isoformat(), "id": str(transaction_id)}`
(`sort_keys=True` puts `"created_at"` first), UTF-8 encoded, URL-safe
base64. -/
def encode_cursor (transaction_id : String) (created_at : PyDatetime) : String :=
  let json := jsonDumpsPairs
    [("created_at".data, isoformatChars created_at), ("id".data, transaction_id.data)]
  String.mk (b64encode (asciiEncode json))

/-- `decode_cursor(cursor)`: reverse of `encode_cursor`; any failure along
the pipeline (bad base64, bad UTF-8, bad JSON, missing key, bad ISO-8601
timestamp) is caught in the source (`ValueError`/`KeyError`/
`JSONDecodeError`/`TypeError`) and surfaces as `None`, here `none`. -/
def decode_cursor (cursor : String) : Option Cursor := do
  let bytes ← b64decode cursor.data
  let chars ← asciiDecode bytes
  let pairs ← parseJsonObject chars
  let tid ← jsonLookup pairs "id".data
  let iso ← jsonLookup pairs "created_at".data
  let dt ← fromisoformatChars iso
  some ⟨String.mk tid, dt⟩

/-! ### Python `uuid.UUID` -/

/-- Does `pat` occur as a prefix of `l`? -/
def listStartsWith : List Char → List Char → Bool
  | [], _ => true
  | _ :: _, [] => false
  | p :: ps, c :: cs => p = c && listStartsWith ps cs

/-- Fuel-bounded scan for `str.replace(pat, '')`; the fuel only needs to
cover the input length, since every step consumes at least one
character. -/
def removeAllSubFuel (pat : List Char) : Nat → List Char → List Char
  | 0, l => l
  | _ + 1, [] => []
  | fuel + 1, c :: cs =>
    if pat ≠ [] ∧ listStartsWith pat (c :: cs) then
      removeAllSubFuel pat fuel (cs.drop (pat.length - 1))
    else
      c :: removeAllSubFuel pat fuel cs

/-- `str.replace(pat, '')`: remove every occurrence of `pat`. -/
def removeAllSub (pat : List Char) (l : List Char) : List Char :=
  removeAllSubFuel pat l.length l

/-- `str.strip('{}')`: remove leading and trailing braces. -/
def stripBraces (l : List Char) : List Char :=
  ((l.dropWhile fun c => c = '{' ∨ c = '}').reverse.dropWhile fun c => c = '{' ∨ c = '}').reverse

/-- Value of a hex-digit character, either case. -/
def pyHexVal (c : Char) : Option Nat := parseHexDigit c

/-- Hex digits with CPython's underscore rule (single underscores between
digits), accumulating the value — the digit grammar of `int(s, 16)`. -/
def pyHexDigitsVal : Nat → List Char → Option Nat
  | acc, [] => some acc
  | acc, c :: rest =>
    if c = '_' then
      match rest with
      | [] => none
      | c2 :: rest2 =>
        match pyHexVal c2 with
        | some d => pyHexDigitsVal (acc * 16 + d) rest2
        | none => none
    else
      match pyHexVal c with
      | some d => pyHexDigitsVal (acc * 16 + d) rest
      | none => none

/-- The ASCII whitespace `int()` strips. -/
def isPySpaceChar (c : Char) : Bool :=
  c = ' ' ∨ c = '\t' ∨ c = '\n' ∨ c = '\r'

/-- `str.strip()` as `int()` applies it. -/
def pyStrip (l : List Char) : List Char :=
  ((l.dropWhile isPySpaceChar).reverse.dropWhile isPySpaceChar).reverse

/-- The optional sign of an `int()` literal: `(is_negative, digits)`. -/
def pySignSplit : List Char → Bool × List Char
  | '+' :: rest => (false, rest)
  | '-' :: rest => (true, rest)
  | rest => (false, rest)

/-- The digit part of `int(s, 16)`: nonempty, no leading underscore. -/
def pyDigitsParse : List Char → Option Nat
  | [] => none
  | c :: rest =>
    if c = '_' then none
    else
      match pyHexVal c with
      | none => none
      | some d => pyHexDigitsVal d rest

/-- `int(s, 16)`: optional surrounding ASCII whitespace, optional sign,
hex digits with single underscores between digits. -/
def pyInt16Parse (l : List Char) : Option Int :=
  match pySignSplit (pyStrip l) with
  | (neg, digits) =>
    match pyDigitsParse digits with
    | none => none
    | some v => some (if neg then -(v : Int) else (v : Int))

/-- The tail of `uuid.UUID(hex_string)`: require 32 hex characters, read
them as a base-16 integer, require the 128-bit range. -/
def uuidFromHexDigits (cs : List Char) : Option Nat :=
  if cs.length = 32 then
    match pyInt16Parse cs with
    | some v => if 0 ≤ v ∧ v < (2 : Int) ^ 128 then some v.toNat else none
    | none => none
  else none

/-- `uuid.UUID(hex_string).int`: strip `urn:` and `uuid:` markers and
braces, drop hyphens, then read the 32 hex digits. -/
def pyUuidParse (s : String) : Option Nat :=
  uuidFromHexDigits
    ((stripBraces (removeAllSub "uuid:".data (removeAllSub "urn:".data s.data))).filter
      (· ≠ '-'))

/-- `n` lowercase hex digits of `v` (most significant first). -/
def hexChars : Nat → Nat → List Char
  | 0, _ => []
  | n + 1, v => hexChars n (v / 16) ++ [hexDigitCharLower (v % 16)]

/-- `str(uuid.UUID(int=v))`: canonical lowercase `8-4-4-4-12` form. -/
def uuidCanonical (v : Nat) : String :=
  String.mk (hexChars 8 (v / 2 ^ 96) ++ '-' ::
    (hexChars 4 (v / 2 ^ 80 % 2 ^ 16) ++ '-' ::
      (hexChars 4 (v / 2 ^ 64 % 2 ^ 16) ++ '-' ::
        (hexChars 4 (v / 2 ^ 48 % 2 ^ 16) ++ '-' :: hexChars 12 (v % 2 ^ 48)))))

/-- Lowercase hex digit character check. -/
def isHexLowerChar (c : Char) : Bool :=
  (48 ≤ c.toNat ∧ c.toNat ≤ 57) ∨ (97 ≤ c.toNat ∧ c.toNat ≤ 102)

/-- Canonical UUID string shape: `8-4-4-4-12` lowercase hex — the form
`str(uuid4())` produces for every id this system assigns: 36 characters,
hyphens at positions 8, 13, 18 and 23, lowercase hex everywhere else. -/
def isCanonicalUuidString (s : String) : Bool :=
  s.data.length = 36 &&
    (List.range 36).all fun i =>
      if i = 8 ∨ i = 13 ∨ i = 18 ∨ i = 23 then s.data.getD i ' ' = '-'
      else isHexLowerChar (s.data.getD i ' ')

/-! ### Data model (`app/models.py`)

A row of the `transactions` table.  `id` is the 128-bit value of the UUID
column (PostgreSQL compares `uuid` values as their 128-bit big-endian
numbers).  `amount` is the `Numeric(18, 2)` column in hundredths
(exact fixed-point).  `custom_metadata` is the nullable JSON column,
`search_content` the nullable text column. -/

/-- A JSON value stored in the `custom_metadata` column, restricted to the
scalar shapes the application writes. -/
inductive PgJson where
  | jnull : PgJson
  | jstr : String → PgJson
  | jnum : Int → PgJson
  | jbool : Bool → PgJson
  deriving DecidableEq, Repr

/-- PostgreSQL `->>`: the text form of a JSON scalar, `NULL` for JSON
`null`. -/
def PgJson.asText : PgJson → Option String
  | .jnull => none
  | .jstr s => some s
  | .jnum n => some (toString n)
  | .jbool b => some (if b then "true" else "false")

/-- A `transactions` row. -/
structure Tx where
  id : Nat
  user_id : String
  transaction_type : String
  product : String
  status : String
  currency : String
  amount : Int
  created_at : PyDatetime
  custom_metadata : Option (List (String × PgJson))
  search_content : Option String
  deriving DecidableEq, Repr

/-- `TransactionFilter` (`app/schemas.py`), with every field optional as in
the schema.  Amount bounds are in the same fixed-point unit as
`Tx.amount`. -/
structure TransactionFilter where
  transaction_type : Option String := none
  product : Option String := none
  status : Option String := none
  currency : Option String := none
  start_date : Option PyDatetime := none
  end_date : Option PyDatetime := none
  min_amount : Option Int := none
  max_amount : Option Int := none
  search_query : Option String := none
  metadata_filters : Option (List (String × String)) := none
  deriving DecidableEq, Repr

/-- ASCII lowercase, for `ILIKE`'s case folding. -/
def asciiLower (c : Char) : Char :=
  if 65 ≤ c.toNat ∧ c.toNat ≤ 90 then Char.ofNat (c.toNat + 32) else c

/-- `col ILIKE '%q%'`: case-insensitive substring containment (`NULL`
column never matches). -/
def ilikeContains (col : Option String) (q : String) : Bool :=
  match col with
  | none => false
  | some s => decide (List.IsInfix (q.data.map asciiLower) (s.data.map asciiLower))

/-- PostgreSQL `custom_metadata ->> key` on a row: `NULL` when the column
is `NULL`, the key is absent, or the stored value is JSON `null`.
A JSON object keeps the last value for a repeated key. -/
def metadataText (md : Option (List (String × PgJson))) (key : String) : Option String :=
  match md with
  | none => none
  | some m =>
    match m.reverse.lookup key with
    | none => none
    | some v => v.asText

/-- One metadata filter clause of `_apply_filters`
(`transaction_repository.py:180-197`):
`and_(json_expr.isnot(None), json_expr == str(value))`. -/
def metadataClause (md : Option (List (String × PgJson))) (key value : String) : Bool :=
  let extracted := metadataText md key
  extracted.isSome && extracted = some value

/-- `TransactionRepository._apply_filters`: the conjunction of the filter
predicates the repository attaches to the user query.  Timestamps compare
as instants (`timestamptz` semantics). -/
def applyFilters (f : TransactionFilter) (t : Tx) : Bool :=
  (match f.transaction_type with | none => true | some v => t.transaction_type = v) &&
  (match f.product with | none => true | some v => t.product = v) &&
  (match f.status with | none => true | some v => t.status = v) &&
  (match f.currency with | none => true | some v => t.currency = v) &&
  (match f.start_date with | none => true | some d => d.instant ≤ t.created_at.instant) &&
  (match f.end_date with | none => true | some d => t.created_at.instant ≤ d.instant) &&
  (match f.min_amount with | none => true | some a => a ≤ t.amount) &&
  (match f.max_amount with | none => true | some a => t.amount ≤ a) &&
  (match f.search_query with | none => true | some q => ilikeContains t.search_content q) &&
  (match f.metadata_filters with
   | none => true
   | some mf => mf.all fun kv => metadataClause t.custom_metadata kv.1 kv.2)

/-- The canonical sort key: `ORDER BY created_at DESC, id DESC` compares
`(created_at, id)` lexicographically; since `id < 2^128`, that
lexicographic order coincides with the order of this flattened key. -/
def txKey (t : Tx) : Int := t.created_at.instant * 2 ^ 128 + (t.id : Int)

/-- The repository's descending canonical order (larger key first). -/
def txDescLe (t1 t2 : Tx) : Prop := txKey t2 ≤ txKey t1

instance : DecidableRel txDescLe := fun t1 t2 => by
  unfold txDescLe
  exact inferInstance

instance : IsTotal Tx txDescLe :=
  ⟨fun t1 t2 => le_total (txKey t2) (txKey t1)⟩

instance : IsTrans Tx txDescLe :=
  ⟨fun _ _ _ h1 h2 => le_trans h2 h1⟩

/-- `ORDER BY created_at DESC, id DESC` over a row set. -/
def sortCanonical (l : List Tx) : List Tx := l.insertionSort txDescLe

/-- The strict descending key order (the canonical order on key-distinct
rows). -/
def txKeyGT (a b : Tx) : Prop := txKey b < txKey a

instance : IsAntisymm Tx txKeyGT :=
  ⟨fun _ _ h1 h2 => absurd (lt_trans h1 h2) (lt_irrefl _)⟩


/-- The cursor predicate of `get_by_user_id_cursor` (PostgreSQL branch):
`created_at < cursor.created_at OR (created_at = cursor.created_at AND id < cursor.id)`. -/
def cursorPred (curInstant : Int) (curId : Nat) (t : Tx) : Bool :=
  t.created_at.instant < curInstant ∨
    (t.created_at.instant = curInstant ∧ t.id < curId)

/-- The row predicate of both repository listings: the mandatory
`user_id` filter conjoined with `_apply_filters` when filters are given. -/
def rowMatches (user_id : String) (filters : Option TransactionFilter) (t : Tx) : Bool :=
  t.user_id = user_id && (match filters with | none => true | some f => applyFilters f t)

/-- `TransactionRepository.get_by_user_id`: filter by user and filters,
count, order canonically, apply offset pagination. -/
def get_by_user_id (db : List Tx) (user_id : String) (filters : Option TransactionFilter)
    (page page_size : Nat) : List Tx × Nat :=
  let matching := db.filter (rowMatches user_id filters)
  let total := matching.length
  let rows := ((sortCanonical matching).drop ((page - 1) * page_size)).take page_size
  (rows, total)

/-- `TransactionRepository.get_by_user_id_cursor` (PostgreSQL branch, the
production dialect): filter, decode the cursor (an undecodable cursor means
no cursor predicate), fetch `limit + 1` rows in canonical order, report
`has_more`.  When the cursor decodes but its `id` is not a valid UUID,
`UUID(cursor_data["id"])` raises out of the repository — modelled as
`none`. -/
def get_by_user_id_cursor (db : List Tx) (user_id : String)
    (filters : Option TransactionFilter) (cursor : Option String) (limit : Nat) :
    Option (List Tx × Bool) :=
  let base := db.filter (rowMatches user_id filters)
  let paginate : List Tx → List Tx × Bool := fun rows =>
    let fetched := (sortCanonical rows).take (limit + 1)
    (fetched.take limit, limit < fetched.length)
  match cursor with
  | none => some (paginate base)
  | some c =>
    match decode_cursor c with
    | none => some (paginate base)
    | some cur =>
      match pyUuidParse cur.id with
      | none => none
      | some cid =>
        some (paginate (base.filter (cursorPred cur.created_at.instant cid)))

/-! ### Query service (`app/services/transaction_service.py`)

The service is embedded in the configuration where the search service is
disabled (`SearchService.enabled = False`): in that configuration every
branch of `get_transactions` / `get_transactions_cursor`, including the
`search_query` fallback, reads the relational repository with the same
arguments, so the whole control flow is captured.  The cache-key builders
are configuration-independent.  The cache is an association list with
most-recent-first lookup, modelling the Redis string store (TTLs are not
modelled; a stale entry is simply a present entry). -/

/-- `PaginatedResponse` for offset pagination. -/
structure PaginatedResponse where
  items : List Tx
  total : Nat
  page : Nat
  page_size : Nat
  total_pages : Nat
  deriving DecidableEq, Repr

/-- `CursorPaginatedResponse` for keyset pagination. -/
structure CursorPaginatedResponse where
  items : List Tx
  next_cursor : Option String
  has_more : Bool
  limit : Nat
  deriving DecidableEq, Repr

/-- `TransactionService._build_cache_key` (`transaction_service.py:208-232`):
only `transaction_type`, `product`, `status`, `currency` and `search_query`
of the filters, plus the page and page size, discriminate the key —
`start_date`, `end_date`, `min_amount`, `max_amount` and
`metadata_filters` are not serialized into it. -/
def buildCacheKey (user_id : String) (filters : Option TransactionFilter)
    (page page_size : Nat) : String :=
  let base := ["transactions:user:" ++ user_id]
  let fparts :=
    match filters with
    | none => []
    | some f =>
      (match f.transaction_type with | none => [] | some v => ["type:" ++ v]) ++
      (match f.product with | none => [] | some v => ["product:" ++ v]) ++
      (match f.status with | none => [] | some v => ["status:" ++ v]) ++
      (match f.currency with | none => [] | some v => ["currency:" ++ v]) ++
      (match f.search_query with | none => [] | some v => ["search:" ++ v])
  let pparts := ["page:" ++ toString page ++ ":size:" ++ toString page_size]
  String.intercalate ":" (base ++ fparts ++ pparts)

/-- `TransactionService._build_cache_key_cursor`
(`transaction_service.py:359-385`): same filter serialization, then
`limit:{limit}` and — when a cursor is present — only its **first 20
characters** (`cursor[:20]`). -/
def buildCacheKeyCursor (user_id : String) (filters : Option TransactionFilter)
    (cursor : Option String) (limit : Nat) : String :=
  let base := ["transactions:user:" ++ user_id ++ ":cursor"]
  let fparts :=
    match filters with
    | none => []
    | some f =>
      (match f.transaction_type with | none => [] | some v => ["type:" ++ v]) ++
      (match f.product with | none => [] | some v => ["product:" ++ v]) ++
      (match f.status with | none => [] | some v => ["status:" ++ v]) ++
      (match f.currency with | none => [] | some v => ["currency:" ++ v]) ++
      (match f.search_query with | none => [] | some v => ["search:" ++ v])
  let pparts :=
    ["limit:" ++ toString limit] ++
      (match cursor with | none => [] | some c => ["cursor:" ++ c.take 20])
  String.intercalate ":" (base ++ fparts ++ pparts)

/-- The read-through cache: Redis `GET` as association lookup. -/
def cacheGet {α : Type} (cache : List (String × α)) (key : String) : Option α :=
  cache.lookup key

/-- Redis `SETEX` as most-recent-first insertion. -/
def cacheSet {α : Type} (cache : List (String × α)) (key : String) (v : α) :
    List (String × α) :=
  (key, v) :: cache

/-- `TransactionService.get_transactions`
(`transaction_service.py:98-188`, search service disabled): build the
cache key, serve a hit as-is, otherwise page the repository, assemble the
response and write it through. -/
def get_transactions (cache : List (String × PaginatedResponse)) (db : List Tx)
    (user_id : String) (filters : Option TransactionFilter) (page page_size : Nat) :
    PaginatedResponse × List (String × PaginatedResponse) :=
  let key := buildCacheKey user_id filters page page_size
  match cacheGet cache key with
  | some cached => (cached, cache)
  | none =>
    let (rows, total) := get_by_user_id db user_id filters page page_size
    let result : PaginatedResponse :=
      ⟨rows, total, page, page_size, (total + page_size - 1) / page_size⟩
    (result, cacheSet cache key result)

/-- `TransactionService.get_transactions_cursor`
(`transaction_service.py:247-357`, search service disabled): cache-or-
repository with keyset pagination; `next_cursor` is encoded from the last
returned row only when rows were returned and `has_more` holds.  `none`
models the uncaught `ValueError` from a decodable cursor whose id is not
a UUID. -/
def get_transactions_cursor (cache : List (String × CursorPaginatedResponse))
    (db : List Tx) (user_id : String) (filters : Option TransactionFilter)
    (cursor : Option String) (limit : Nat) :
    Option (CursorPaginatedResponse × List (String × CursorPaginatedResponse)) :=
  let key := buildCacheKeyCursor user_id filters cursor limit
  match cacheGet cache key with
  | some cached => some (cached, cache)
  | none =>
    match get_by_user_id_cursor db user_id filters cursor limit with
    | none => none
    | some (rows, has_more) =>
      let next_cursor :=
        if rows ≠ [] ∧ has_more then
          match rows.getLast? with
          | some last => some (encode_cursor (uuidCanonical last.id) last.created_at)
          | none => none
        else none
      let result : CursorPaginatedResponse := ⟨rows, next_cursor, has_more, limit⟩
      some (result, cacheSet cache key result)

/-! ### Circuit breaker (`app/middleware/circuit_breaker.py`)

Time is in seconds (`datetime.now()` sampled monotonically); the critical
section makes each `call` atomic, so a run is a sequence of calls each
tagged with its time and the outcome the wrapped function would produce. -/

/-- The three breaker states. -/
inductive CircuitState where
  | closed : CircuitState
  | opn : CircuitState
  | halfOpen : CircuitState
  deriving DecidableEq, Repr

/-- Breaker configuration: the global enable flag
(`settings.circuit_breaker_enabled`), `failure_threshold` and `timeout`.
`half_open_success_threshold` is the literal 2 in the source. -/
structure CBConfig where
  enabled : Bool
  failure_threshold : Nat
  timeout : Nat
  deriving DecidableEq, Repr

/-- The mutable breaker fields. -/
structure CBState where
  state : CircuitState
  failure_count : Nat
  success_count : Nat
  last_failure_time : Option Nat
  deriving DecidableEq, Repr

/-- The fresh breaker built by `CircuitBreaker.__init__`. -/
def cbInit : CBState := ⟨.closed, 0, 0, none⟩

/-- Outcome the wrapped function would produce if invoked. -/
inductive CallOutcome where
  | success : CallOutcome
  | expectedFailure : CallOutcome
  | unexpectedFailure : CallOutcome
  deriving DecidableEq, Repr

/-- What a `call` did: rejected without invoking the function
(`CircuitBreakerOpenError`), or invoked it with the given outcome
(failures re-raise after being counted). -/
inductive CallResult where
  | rejected : CallResult
  | invoked : CallOutcome → CallResult
  deriving DecidableEq, Repr

/-- `CircuitBreaker._should_attempt_reset`. -/
def cbShouldAttemptReset (cfg : CBConfig) (s : CBState) (now : Nat) : Bool :=
  match s.last_failure_time with
  | none => false
  | some t => cfg.timeout ≤ now - t

/-- `CircuitBreaker._on_success`. -/
def cbOnSuccess (s : CBState) : CBState :=
  match s.state with
  | .halfOpen =>
    let sc := s.success_count + 1
    if 2 ≤ sc then ⟨.closed, 0, 0, s.last_failure_time⟩
    else { s with success_count := sc }
  | .closed => { s with failure_count := 0 }
  | .opn => s

/-- `CircuitBreaker._on_failure`. -/
def cbOnFailure (cfg : CBConfig) (s : CBState) (now : Nat) : CBState :=
  let s := { s with failure_count := s.failure_count + 1, last_failure_time := some now }
  match s.state with
  | .halfOpen => { s with state := .opn, success_count := 0 }
  | .closed =>
    if cfg.failure_threshold ≤ s.failure_count then { s with state := .opn } else s
  | .opn => s

/-- `CircuitBreaker.call`: pass-through when the kill switch is off;
otherwise reject while `OPEN` and inside the timeout window, move to
`HALF_OPEN` when the timeout has elapsed, then invoke and account the
outcome (unexpected exceptions propagate uncounted). -/
def cbCall (cfg : CBConfig) (s : CBState) (now : Nat) (outcome : CallOutcome) :
    CallResult × CBState :=
  if ¬cfg.enabled then (.invoked outcome, s)
  else
    let admitted : Option CBState :=
      match s.state with
      | .opn =>
        if cbShouldAttemptReset cfg s now then
          some { s with state := .halfOpen, success_count := 0 }
        else none
      | _ => some s
    match admitted with
    | none => (.rejected, s)
    | some s1 =>
      match outcome with
      | .success => (.invoked .success, cbOnSuccess s1)
      | .expectedFailure => (.invoked .expectedFailure, cbOnFailure cfg s1 now)
      | .unexpectedFailure => (.invoked .unexpectedFailure, s1)

/-- A run of calls, returning the final state. -/
def cbRun (cfg : CBConfig) (s : CBState) : List (Nat × CallOutcome) → CBState
  | [] => s
  | (now, o) :: rest => cbRun cfg (cbCall cfg s now o).2 rest

/-- `CircuitBreaker.reset()`. -/
def cbReset (_ : CBState) : CBState := ⟨.closed, 0, 0, none⟩

/-! ### Message consumer (`app/services/message_consumer.py`)

`_process_batch` handles each message of a batch, appending it to either
the `successful` list (whose offsets are committed — acknowledged) or the
`failed` list (sent to the DLQ topic afterwards, unless the Elasticsearch
breaker is open at that moment).  The outward effects of one message are
recorded explicitly; the outcomes of the index and audit calls are
supplied as an environment, since the consumer only observes them through
the booleans the services return. -/

/-- What `search_service.index_transaction` encountered.  The consumer sees
only `true` for `ok` and `false` otherwise — the cause is not observable
from the return value. -/
inductive IndexOutcome where
  | ok : IndexOutcome
  | breakerOpen : IndexOutcome
  | otherFail : IndexOutcome
  deriving DecidableEq, Repr

/-- The boolean `index_transaction` returns for each outcome
(`search_service.py:63-102`: `True` on success, `False` both on
`CircuitBreakerOpenError` and on any other failure). -/
def indexReturn : IndexOutcome → Bool
  | .ok => true
  | _ => false

/-- Per-message environment: duplicate status, index outcome, audit-write
outcome, and whether an unexpected exception escapes the per-message body
(landing in the `except` that appends to `failed`). -/
structure MsgEnv where
  isDup : Bool
  indexOutcome : IndexOutcome
  auditOk : Bool
  raises : Bool
  deriving DecidableEq, Repr

/-- The parts of a consumed message the batch loop inspects:
`event_type`, whether a `transaction` payload is present, and whether the
normalized transaction id is non-empty (the `if transaction_id:` check of
the delete branch). -/
structure ConsumerMsg where
  event_type : Option String
  hasTransaction : Bool
  txIdNonEmpty : Bool
  deriving DecidableEq, Repr

/-- The outward effects of handling one message. -/
structure MsgEffects where
  enriched : Bool
  indexAttempted : Bool
  auditAttempted : Bool
  deleteAttempted : Bool
  marked : Bool
  acked : Bool
  inFailed : Bool
  deriving DecidableEq, Repr

/-- Handling of one message inside `_process_batch`
(`message_consumer.py:256-340`).  Order of checks as in the source:
missing payload → ack; duplicate → ack; enrich and version; then dispatch
on `event_type`.  For `transaction.created`/`updated` the index upsert and
the audit write are both attempted and the message is marked processed and
acknowledged **whatever** the two outcomes were (`_write_to_audit_db`
swallows its own exceptions, and both branches of `if success` append to
`successful`).  `transaction.deleted` with an id deletes and acks; an
empty id fails the message.  Any other event type fails the message. -/
def processMessage (env : MsgEnv) (m : ConsumerMsg) : MsgEffects :=
  if env.raises then
    ⟨false, false, false, false, false, false, true⟩
  else if ¬m.hasTransaction then
    ⟨false, false, false, false, false, true, false⟩
  else if env.isDup then
    ⟨false, false, false, false, false, true, false⟩
  else if m.event_type = some "transaction.created" ∨ m.event_type = some "transaction.updated" then
    ⟨true, true, true, false, true, true, false⟩
  else if m.event_type = some "transaction.deleted" then
    if m.txIdNonEmpty then ⟨true, false, true, true, true, true, false⟩
    else ⟨true, false, false, false, false, false, true⟩
  else
    ⟨true, false, false, false, false, false, true⟩

/-- The DLQ stage of `_process_batch` (`message_consumer.py:353-375`): each
failed message is sent to `<topic>.dlq`, unless the Elasticsearch breaker
is open at that moment, in which case nothing is sent. -/
def dlqSent (esBreakerOpen : Bool) (failed : List ConsumerMsg) : List ConsumerMsg :=
  if esBreakerOpen then [] else failed

/-- A whole batch: the per-message dispositions, the committed
(acknowledged) messages, and the DLQ pushes. -/
structure BatchResult where
  successful : List ConsumerMsg
  failed : List ConsumerMsg
  dlq : List ConsumerMsg
  deriving DecidableEq, Repr

/-- `_process_batch` over a batch paired with its per-message
environments: partition by disposition, commit the successes, DLQ the
failures (breaker permitting). -/
def processBatch (batch : List (MsgEnv × ConsumerMsg)) (esBreakerOpenAtDlq : Bool) :
    BatchResult :=
  let tagged := batch.map fun (env, m) => (m, processMessage env m)
  let successful := (tagged.filter fun p => p.2.acked).map Prod.fst
  let failed := (tagged.filter fun p => p.2.inFailed).map Prod.fst
  ⟨successful, failed, dlqSent esBreakerOpenAtDlq failed⟩

/-! ### `GET /transactions/{id}` (`app/api/routes/transactions.py:194-239`) -/

/-- The responses the route can produce. -/
inductive RouteResp where
  | ok : Tx → RouteResp
  | badRequest : RouteResp
  | forbidden : RouteResp
  | notFound : RouteResp
  deriving DecidableEq, Repr

/-- `TransactionService.get_transaction`
(`transaction_service.py:190-206`): cache under `transaction:{id}`, else
`repository.get_by_id` (lookup of the UUID value in the store). -/
def serviceGetTransaction (db : List Tx) (cache : List (String × Tx)) (tid : String) :
    Option Tx :=
  match cacheGet cache ("transaction:" ++ tid) with
  | some t => some t
  | none =>
    match pyUuidParse tid with
    | some v => db.find? fun t => t.id = v
    | none => none

/-- The `get_transaction` route: validate and normalize the UUID path
parameter (400 on failure), look the record up (404 when absent), and
refuse a cross-user read (403) when a caller is authenticated. -/
def getTransactionRoute (db : List Tx) (cache : List (String × Tx)) (tid : String)
    (current_user : Option String) : RouteResp :=
  match pyUuidParse tid with
  | none => .badRequest
  | some v =>
    let tidNorm := uuidCanonical v
    match serviceGetTransaction db cache tidNorm with
    | none => .notFound
    | some t =>
      match current_user with
      | some u => if t.user_id ≠ u then .forbidden else .ok t
      | none => .ok t

/-! ### Statement helpers -/

/-- Characters that `json.dumps` emits verbatim and `json.loads` reads
verbatim: printable ASCII other than the quote and the backslash. -/
def jsonPlainChar (c : Char) : Bool :=
  32 ≤ c.toNat ∧ c.toNat ≤ 126 ∧ c ≠ '"' ∧ c ≠ '\\'

/-- Is the message's event type one of the three the batch loop handles? -/
def isUnknownEventType (m : ConsumerMsg) : Bool :=
  m.event_type ≠ some "transaction.created" &&
  m.event_type ≠ some "transaction.updated" &&
  m.event_type ≠ some "transaction.deleted"

/-- Is the message a create or update event? -/
def isCreatedOrUpdated (m : ConsumerMsg) : Bool :=
  m.event_type = some "transaction.created" || m.event_type = some "transaction.updated"

/-- Claim C1 as stated, instantiated at one message: when the index upsert
fails **because the breaker is open**, the consumer marks the fingerprint
processed and acknowledges iff the audit write succeeded; on any other
index failure, or when the audit write fails, the message goes to the DLQ
and is not acknowledged. -/
def ClaimC1At (env : MsgEnv) (m : ConsumerMsg) (esBreakerOpenAtDlq : Bool) : Prop :=
  isCreatedOrUpdated m = true → m.hasTransaction = true → env.isDup = false →
  env.raises = false →
  ((env.indexOutcome = .breakerOpen →
      (((processMessage env m).marked = true ∧ (processMessage env m).acked = true) ↔
        env.auditOk = true)) ∧
   ((env.indexOutcome = .otherFail ∨ env.auditOk = false) →
      (processBatch [(env, m)] esBreakerOpenAtDlq).dlq = [m] ∧
        (processMessage env m).acked = false))

/-- Claim C5 as stated, instantiated at one message: an unknown event type
or a missing transaction payload is acknowledged, with no enrichment and
no fan-out writes, and is never pushed to the DLQ. -/
def ClaimC5At (env : MsgEnv) (m : ConsumerMsg) (esBreakerOpenAtDlq : Bool) : Prop :=
  (isUnknownEventType m = true ∨ m.hasTransaction = false) → env.raises = false →
  ((processMessage env m).acked = true ∧
   (processMessage env m).enriched = false ∧
   (processMessage env m).indexAttempted = false ∧
   (processMessage env m).auditAttempted = false ∧
   (processMessage env m).deleteAttempted = false ∧
   (processBatch [(env, m)] esBreakerOpenAtDlq).dlq = [])

/-! ### Concrete sample data (for counterexamples and witnesses) -/

/-- A fixed aware timestamp: `2024-01-15T10:30:{sec}+00:00`. -/
def dt2024 (sec : Nat) : PyDatetime := ⟨2024, 1, 15, 10, 30, sec, 0, some 0⟩

/-- A sample card transaction row. -/
def sampleTx (i : Nat) (uid : String) (sec : Nat) : Tx :=
  ⟨i, uid, "card", "Card", "completed", "USD", 10000, dt2024 sec, none, none⟩

/-! ## Theorems -/

/-- **C9** — `decode_cursor` is total by construction (`Option`-valued: the
source catches every exception class its pipeline raises), and for every
input string on which it returns the "not a valid cursor" result, the
keyset query applies no cursor predicate: it behaves exactly as with no
cursor, starting from the beginning of the canonical order. -/
theorem c9_malformed_cursor_starts_from_beginning (s : String)
    (h : decode_cursor s = none) (db : List Tx) (u : String)
    (f : Option TransactionFilter) (limit : Nat) :
    get_by_user_id_cursor db u f (some s) limit =
      get_by_user_id_cursor db u f none limit := by
  simp only [get_by_user_id_cursor, h]

/-- Witness for C9 at the concrete malformed cursor `"invalid_cursor"`. -/
theorem c9_witness :
    decode_cursor "invalid_cursor" = none ∧
    get_by_user_id_cursor [sampleTx 1 "u1" 1] "u1" none (some "invalid_cursor") 20 =
      get_by_user_id_cursor [sampleTx 1 "u1" 1] "u1" none none 20 :=
  ⟨by decide,
   c9_malformed_cursor_starts_from_beginning "invalid_cursor" (by decide)
     [sampleTx 1 "u1" 1] "u1" none 20⟩

/-- **C10** — the cursor-pagination cache key depends on the cursor only
through its first 20 characters: two `get_transactions_cursor` requests
identical except for cursors sharing a 20-character prefix produce equal
cache keys, and a page cached by the first call is served verbatim to the
second. -/
theorem c10_cursor_cache_key_truncates_cursor (u : String)
    (f : Option TransactionFilter) (limit : Nat) (c1 c2 : String)
    (h : c1.take 20 = c2.take 20) :
    buildCacheKeyCursor u f (some c1) limit = buildCacheKeyCursor u f (some c2) limit ∧
    ∀ (cache : List (String × CursorPaginatedResponse)) (db : List Tx) r cache1,
      get_transactions_cursor cache db u f (some c1) limit = some (r, cache1) →
      get_transactions_cursor cache1 db u f (some c2) limit = some (r, cache1) := by
  have hkey : buildCacheKeyCursor u f (some c1) limit =
      buildCacheKeyCursor u f (some c2) limit := by
    simp only [buildCacheKeyCursor, h]
  refine ⟨hkey, ?_⟩
  intro cache db r cache1 hcall
  simp only [get_transactions_cursor, ← hkey] at hcall ⊢
  cases hg : cacheGet cache (buildCacheKeyCursor u f (some c1) limit) with
  | some v =>
    rw [hg] at hcall
    simp only [Option.some.injEq, Prod.mk.injEq] at hcall
    obtain ⟨rfl, rfl⟩ := hcall
    rw [hg]
  | none =>
    rw [hg] at hcall
    cases hrepo : get_by_user_id_cursor db u f (some c1) limit with
    | none => rw [hrepo] at hcall; exact absurd hcall (by simp)
    | some p =>
      rw [hrepo] at hcall
      obtain ⟨rows, hm⟩ := p
      simp only [Option.some.injEq, Prod.mk.injEq] at hcall
      obtain ⟨hr, hc⟩ := hcall
      subst hc
      subst hr
      have hgg : ∀ (x : CursorPaginatedResponse),
          cacheGet (cacheSet cache (buildCacheKeyCursor u f (some c1) limit) x)
            (buildCacheKeyCursor u f (some c1) limit) = some x := by
        intro x
        simp [cacheGet, cacheSet, List.lookup]
      rw [hgg]

/-- Witness for C10: two distinct cursors sharing their first 20
characters produce the same cursor cache key. -/
theorem c10_witness :
    ("AAAAAAAAAAAAAAAAAAAAxx" : String) ≠ "AAAAAAAAAAAAAAAAAAAAyy" ∧
    buildCacheKeyCursor "u1" none (some "AAAAAAAAAAAAAAAAAAAAxx") 20 =
      buildCacheKeyCursor "u1" none (some "AAAAAAAAAAAAAAAAAAAAyy") 20 :=
  ⟨by decide,
   (c10_cursor_cache_key_truncates_cursor "u1" none 20
     "AAAAAAAAAAAAAAAAAAAAxx" "AAAAAAAAAAAAAAAAAAAAyy" (by decide)).1⟩

/-- **C6** — a metadata filter pair `(key, value)` matches a row iff the
key is present in the row's metadata object with a non-`NULL` extracted
text equal to `value`; in particular a row lacking the key never matches
(`json ->> key IS NOT NULL` excludes both a missing key and a stored JSON
`null`, so "missing" is never conflated with a stored null). -/
theorem c6_metadata_filter_requires_key (md : Option (List (String × PgJson)))
    (k v : String) :
    (metadataClause md k v = true ↔
      ∃ m jv, md = some m ∧ m.reverse.lookup k = some jv ∧ jv.asText = some v) ∧
    (∀ m, md = some m → m.reverse.lookup k = none → metadataClause md k v = false) ∧
    (md = none → metadataClause md k v = false) := by
  refine ⟨?_, ?_, ?_⟩
  · unfold metadataClause metadataText
    cases md with
    | none => simp
    | some m =>
      cases hl : m.reverse.lookup k with
      | none => simp [hl]
      | some jv =>
        cases hjv : jv.asText with
        | none => simp [hl, hjv]
        | some s =>
          constructor
          · intro hs
            have hsv : s = v := by simpa [hl, hjv] using hs
            exact ⟨m, jv, rfl, hl, by rw [hjv, hsv]⟩
          · rintro ⟨m', jv', hm', hl', ht'⟩
            obtain rfl : m = m' := by injection hm'
            have hjj : jv = jv' := by
              have h2 := hl.symm.trans hl'
              injection h2
            rw [← hjj] at ht'
            have hsv : s = v := by rw [hjv] at ht'; injection ht'
            simp [hl, hjv, hsv]
  · intro m hmd hl
    subst hmd
    unfold metadataClause metadataText
    simp [hl]
  · intro hmd
    subst hmd
    unfold metadataClause metadataText
    simp

/-- Witness for C6 at concrete metadata: a present `direction: "sent"` key
matches, a row lacking `card_last_four` does not. -/
theorem c6_witness :
    metadataClause (some [("direction", PgJson.jstr "sent")]) "direction" "sent" = true ∧
    metadataClause (some [("merchant_name", PgJson.jstr "Starbucks")]) "card_last_four" "5678"
      = false :=
  ⟨(c6_metadata_filter_requires_key (some [("direction", PgJson.jstr "sent")])
      "direction" "sent").1.mpr
      ⟨[("direction", PgJson.jstr "sent")], PgJson.jstr "sent", rfl, by decide, by decide⟩,
   (c6_metadata_filter_requires_key (some [("merchant_name", PgJson.jstr "Starbucks")])
      "card_last_four" "5678").2.1
      [("merchant_name", PgJson.jstr "Starbucks")] rfl (by decide)⟩

/-! ### UUID canonicalization lemmas -/

/-- Hex digits of values below 16 are lowercase hex characters. -/
theorem isHexLowerChar_hexDigitCharLower : ∀ m, m < 16 →
    isHexLowerChar (hexDigitCharLower m) = true := by decide

/-- Every character printed by `hexChars` is a lowercase hex character. -/
theorem mem_hexChars_isHex : ∀ n v c, c ∈ hexChars n v → isHexLowerChar c = true := by
  intro n
  induction n with
  | zero => intro v c hc; simp [hexChars] at hc
  | succ n ih =>
    intro v c hc
    simp only [hexChars, List.mem_append, List.mem_singleton] at hc
    rcases hc with hc | hc
    · exact ih _ _ hc
    · subst hc
      exact isHexLowerChar_hexDigitCharLower _ (Nat.mod_lt _ (by omega))

/-- `hexChars` prints exactly `n` characters. -/
theorem hexChars_length : ∀ n v, (hexChars n v).length = n := by
  intro n
  induction n with
  | zero => intro v; rfl
  | succ n ih => intro v; simp [hexChars, ih]

/-- Splitting the hex digits of a value: high digits then low digits. -/
theorem hexChars_add : ∀ n m v, hexChars (m + n) v =
    hexChars m (v / 16 ^ n) ++ hexChars n (v % 16 ^ n) := by
  intro n
  induction n with
  | zero => intro m v; simp [hexChars, Nat.mod_one]
  | succ n ih =>
    intro m v
    have h1 : m + (n + 1) = (m + n) + 1 := by omega
    rw [h1]
    show hexChars (m + n) (v / 16) ++ [hexDigitCharLower (v % 16)] = _
    rw [ih m (v / 16)]
    have e1 : v / 16 / 16 ^ n = v / 16 ^ (n + 1) := by
      rw [Nat.div_div_eq_div_mul]
      congr 1
      ring
    have e2 : v / 16 % 16 ^ n = v % 16 ^ (n + 1) / 16 := by
      rw [Nat.pow_succ']
      rw [Nat.mod_mul_right_div_self]
    have e3 : v % 16 = v % 16 ^ (n + 1) % 16 := by
      rw [Nat.pow_succ]
      rw [Nat.mod_mul_left_mod]
    rw [e1, e2, e3, List.append_assoc]
    rfl

/-- The head-first form of `hexChars`. -/
theorem hexChars_succ_cons (n v : Nat) : hexChars (n + 1) v =
    hexDigitCharLower (v / 16 ^ n % 16) :: hexChars n (v % 16 ^ n) := by
  have h := hexChars_add n 1 v
  rw [show 1 + n = n + 1 from by omega] at h
  rw [h]
  show hexChars 0 (v / 16 ^ n / 16) ++ [hexDigitCharLower (v / 16 ^ n % 16)] ++ _ = _
  rfl

/-- A matched prefix pattern is contained in the list. -/
theorem listStartsWith_mem : ∀ (pat l : List Char), listStartsWith pat l = true →
    ∀ x ∈ pat, x ∈ l := by
  intro pat
  induction pat with
  | nil => intro l _ x hx; simp at hx
  | cons p ps ih =>
    intro l h x hx
    cases l with
    | nil => simp [listStartsWith] at h
    | cons c cs =>
      simp only [listStartsWith, Bool.and_eq_true, decide_eq_true_eq] at h
      rcases List.mem_cons.mp hx with hx | hx
      · subst hx; rw [h.1]; exact List.mem_cons_self _ _
      · exact List.mem_cons_of_mem _ (ih cs h.2 x hx)

/-- `str.replace(pat, '')` leaves a string alone when some character of the
pattern never occurs in it. -/
theorem removeAllSubFuel_of_not_mem (pat : List Char) (x : Char) (hx : x ∈ pat) :
    ∀ (fuel : Nat) (l : List Char), x ∉ l → removeAllSubFuel pat fuel l = l := by
  intro fuel
  induction fuel with
  | zero => intro l _; rfl
  | succ fuel ih =>
    intro l hnl
    cases l with
    | nil => rfl
    | cons c cs =>
      have hstart : ¬(pat ≠ [] ∧ listStartsWith pat (c :: cs) = true) := by
        rintro ⟨-, hs⟩
        exact hnl (listStartsWith_mem pat (c :: cs) hs x hx)
      unfold removeAllSubFuel
      rw [if_neg (by simpa using hstart)]
      rw [ih cs (fun h => hnl (List.mem_cons_of_mem _ h))]

/-- `str.replace(pat, '')` leaves a string alone when some character of the
pattern never occurs in it. -/
theorem removeAllSub_of_not_mem (pat : List Char) (x : Char) (hx : x ∈ pat)
    (l : List Char) (hnl : x ∉ l) : removeAllSub pat l = l :=
  removeAllSubFuel_of_not_mem pat x hx l.length l hnl

/-- `dropWhile` is the identity when the predicate holds nowhere. -/
theorem dropWhile_eq_self_of_all {p : Char → Bool} : ∀ l : List Char,
    (∀ c ∈ l, p c = false) → l.dropWhile p = l := by
  intro l h
  cases l with
  | nil => rfl
  | cons c cs => simp [List.dropWhile, h c (List.mem_cons_self _ _)]

/-- Values below 16 round-trip through their hex character. -/
theorem pyHexVal_hexDigitCharLower : ∀ m, m < 16 →
    pyHexVal (hexDigitCharLower m) = some m := by decide

/-- Lowercase hex characters are none of the special characters the
integer parser treats specially. -/
theorem isHexLowerChar_not_special : ∀ c, isHexLowerChar c = true →
    c ≠ '_' ∧ c ≠ '-' ∧ c ≠ '+' ∧ c ≠ '{' ∧ c ≠ '}' ∧ c ≠ ':' ∧
    c ≠ ' ' ∧ c ≠ '\t' ∧ c ≠ '\n' ∧ c ≠ '\r' ∧ (pyHexVal c).isSome = true := by
  intro c h
  unfold isHexLowerChar at h
  simp only [decide_eq_true_eq] at h
  unfold pyHexVal parseHexDigit
  have h34 : c.toNat ≠ 95 ∧ c.toNat ≠ 45 ∧ c.toNat ≠ 43 ∧ c.toNat ≠ 123 ∧
      c.toNat ≠ 125 ∧ c.toNat ≠ 58 ∧ c.toNat ≠ 32 ∧ c.toNat ≠ 9 ∧
      c.toNat ≠ 10 ∧ c.toNat ≠ 13 := by omega
  refine ⟨fun hc => by subst hc; exact absurd rfl h34.1,
          fun hc => by subst hc; exact absurd rfl h34.2.1,
          fun hc => by subst hc; exact absurd rfl h34.2.2.1,
          fun hc => by subst hc; exact absurd rfl h34.2.2.2.1,
          fun hc => by subst hc; exact absurd rfl h34.2.2.2.2.1,
          fun hc => by subst hc; exact absurd rfl h34.2.2.2.2.2.1,
          fun hc => by subst hc; exact absurd rfl h34.2.2.2.2.2.2.1,
          fun hc => by subst hc; exact absurd rfl h34.2.2.2.2.2.2.2.1,
          fun hc => by subst hc; exact absurd rfl h34.2.2.2.2.2.2.2.2.1,
          fun hc => by subst hc; exact absurd rfl h34.2.2.2.2.2.2.2.2.2,
          ?_⟩
  rcases h with h | h
  · rw [if_pos (by omega)]; rfl
  · rw [if_neg (by omega), if_pos (by omega)]; rfl

/-- One digit step of the underscore-aware hex accumulator. -/
theorem pyHexDigitsVal_cons (acc : Nat) (c : Char) (rest : List Char) (d : Nat)
    (hne : c ≠ '_') (hd : pyHexVal c = some d) :
    pyHexDigitsVal acc (c :: rest) = pyHexDigitsVal (acc * 16 + d) rest := by
  rw [pyHexDigitsVal.eq_def]
  simp [hne, hd]

/-- The accumulator consumes a block of hex digits as a base-16 prefix. -/
theorem pyHexDigitsVal_hexChars : ∀ n v acc rest, v < 16 ^ n →
    pyHexDigitsVal acc (hexChars n v ++ rest) =
      pyHexDigitsVal (acc * 16 ^ n + v) rest := by
  intro n
  induction n with
  | zero =>
    intro v acc rest hv
    interval_cases v
    simp [hexChars]
  | succ n ih =>
    intro v acc rest hv
    rw [hexChars_succ_cons]
    have hd0lt : v / 16 ^ n % 16 < 16 := Nat.mod_lt _ (by omega)
    have hhex := isHexLowerChar_hexDigitCharLower _ hd0lt
    have hspec := isHexLowerChar_not_special _ hhex
    rw [List.cons_append,
      pyHexDigitsVal_cons acc _ _ _ hspec.1 (pyHexVal_hexDigitCharLower _ hd0lt)]
    rw [ih (v % 16 ^ n) _ rest (Nat.mod_lt _ (by positivity))]
    congr 1
    have hvn : v / 16 ^ n < 16 := by
      rw [Nat.div_lt_iff_lt_mul (by positivity)]
      calc v < 16 ^ (n + 1) := hv
        _ ≤ 16 * 16 ^ n := by rw [Nat.pow_succ']
    have hmod : v / 16 ^ n % 16 = v / 16 ^ n := Nat.mod_eq_of_lt hvn
    calc (acc * 16 + v / 16 ^ n % 16) * 16 ^ n + v % 16 ^ n
        = acc * (16 * 16 ^ n) + (16 ^ n * (v / 16 ^ n) + v % 16 ^ n) := by
          rw [hmod]; ring
      _ = acc * 16 ^ (n + 1) + v := by rw [Nat.div_add_mod, Nat.pow_succ']

/-- `pyStrip` is the identity on whitespace-free input. -/
theorem pyStrip_of_no_space (l : List Char) (h : ∀ c ∈ l, isPySpaceChar c = false) :
    pyStrip l = l := by
  unfold pyStrip
  rw [dropWhile_eq_self_of_all l h,
    dropWhile_eq_self_of_all l.reverse (fun c hc => h c (List.mem_reverse.mp hc)),
    List.reverse_reverse]

/-- `pySignSplit` finds no sign when the head is not `+`/`-`. -/
theorem pySignSplit_no_sign (c : Char) (l : List Char) (h1 : c ≠ '+') (h2 : c ≠ '-') :
    pySignSplit (c :: l) = (false, c :: l) := by
  unfold pySignSplit
  split
  · rename_i heq; injection heq with ha _; exact absurd ha h1
  · rename_i heq; injection heq with ha _; exact absurd ha h2
  · rfl


/-- `pyDigitsParse` on a nonempty hex-digit block reads its value. -/
theorem pyDigitsParse_hexChars (n v : Nat) (hn : 1 ≤ n) (hv : v < 16 ^ n) :
    pyDigitsParse (hexChars n v) = some v := by
  obtain ⟨m, rfl⟩ : ∃ m, n = m + 1 := ⟨n - 1, by omega⟩
  rw [hexChars_succ_cons]
  have hd0lt : v / 16 ^ m % 16 < 16 := Nat.mod_lt _ (by omega)
  have hhex := isHexLowerChar_hexDigitCharLower _ hd0lt
  have hspec := isHexLowerChar_not_special _ hhex
  rw [pyDigitsParse.eq_def]
  simp only [hspec.1, if_false, pyHexVal_hexDigitCharLower _ hd0lt, if_neg]
  have hrw := pyHexDigitsVal_hexChars m (v % 16 ^ m) (v / 16 ^ m % 16) []
    (Nat.mod_lt _ (by positivity))
  rw [← List.append_nil (hexChars m (v % 16 ^ m)), hrw]
  have hvn : v / 16 ^ m < 16 := by
    rw [Nat.div_lt_iff_lt_mul (by positivity)]
    calc v < 16 ^ (m + 1) := hv
      _ ≤ 16 * 16 ^ m := by rw [Nat.pow_succ']
  have harith : v / 16 ^ m % 16 * 16 ^ m + v % 16 ^ m = v := by
    rw [Nat.mod_eq_of_lt hvn]
    exact Nat.div_add_mod' v (16 ^ m)
  rw [harith]
  rfl

/-- `int(s, 16)` on a nonempty hex-digit block reads its value. -/
theorem pyInt16Parse_hexChars (n v : Nat) (hn : 1 ≤ n) (hv : v < 16 ^ n) :
    pyInt16Parse (hexChars n v) = some (v : Int) := by
  have hall : ∀ c ∈ hexChars n v, isHexLowerChar c = true := mem_hexChars_isHex n v
  have hnospace : ∀ c ∈ hexChars n v, isPySpaceChar c = false := by
    intro c hc
    have hspec := isHexLowerChar_not_special c (hall c hc)
    unfold isPySpaceChar
    simp [hspec.2.2.2.2.2.2.1, hspec.2.2.2.2.2.2.2.1,
      hspec.2.2.2.2.2.2.2.2.1, hspec.2.2.2.2.2.2.2.2.2.1]
  unfold pyInt16Parse
  rw [pyStrip_of_no_space _ hnospace]
  obtain ⟨m, rfl⟩ : ∃ m, n = m + 1 := ⟨n - 1, by omega⟩
  have hhead : ∃ c rest, hexChars (m + 1) v = c :: rest ∧ isHexLowerChar c = true := by
    rw [hexChars_succ_cons]
    exact ⟨_, _, rfl, isHexLowerChar_hexDigitCharLower _ (Nat.mod_lt _ (by omega))⟩
  obtain ⟨c, rest, hcr, hchex⟩ := hhead
  have hspec := isHexLowerChar_not_special c hchex
  rw [hcr, pySignSplit_no_sign c rest hspec.2.2.1 hspec.2.1, ← hcr]
  show (match pyDigitsParse (hexChars (m + 1) v) with
    | none => none
    | some w => some (if false = true then -(w : Int) else (w : Int))) = some (v : Int)
  rw [pyDigitsParse_hexChars (m + 1) v hn hv]
  rfl

/-- Every character of the canonical UUID form is lowercase hex or a
hyphen. -/
theorem mem_uuidCanonical (v : Nat) :
    ∀ c ∈ (uuidCanonical v).data, isHexLowerChar c = true ∨ c = '-' := by
  intro c hc
  have hdata : (uuidCanonical v).data =
      hexChars 8 (v / 2 ^ 96) ++ '-' ::
        (hexChars 4 (v / 2 ^ 80 % 2 ^ 16) ++ '-' ::
          (hexChars 4 (v / 2 ^ 64 % 2 ^ 16) ++ '-' ::
            (hexChars 4 (v / 2 ^ 48 % 2 ^ 16) ++ '-' :: hexChars 12 (v % 2 ^ 48)))) := rfl
  rw [hdata] at hc
  simp only [List.mem_append, List.mem_cons] at hc
  rcases hc with hc | hc | hc | hc | hc | hc | hc | hc | hc
  all_goals first
  | (left; exact mem_hexChars_isHex _ _ _ hc)
  | (right; exact hc)

/-- Hex digit blocks contain no hyphen to filter. -/
theorem hexChars_filter_ne_dash (n w : Nat) :
    (hexChars n w).filter (· ≠ '-') = hexChars n w := by
  rw [List.filter_eq_self]
  intro c hc
  have hspec := isHexLowerChar_not_special c (mem_hexChars_isHex n w c hc)
  simp [hspec.2.1]

/-- Dropping the hyphens of the canonical form leaves its five hex digit
blocks. -/
theorem uuidCanonical_filter (v : Nat) :
    (uuidCanonical v).data.filter (· ≠ '-') =
      hexChars 8 (v / 2 ^ 96) ++
        (hexChars 4 (v / 2 ^ 80 % 2 ^ 16) ++
          (hexChars 4 (v / 2 ^ 64 % 2 ^ 16) ++
            (hexChars 4 (v / 2 ^ 48 % 2 ^ 16) ++ hexChars 12 (v % 2 ^ 48)))) := by
  have hdata : (uuidCanonical v).data =
      hexChars 8 (v / 2 ^ 96) ++ '-' ::
        (hexChars 4 (v / 2 ^ 80 % 2 ^ 16) ++ '-' ::
          (hexChars 4 (v / 2 ^ 64 % 2 ^ 16) ++ '-' ::
            (hexChars 4 (v / 2 ^ 48 % 2 ^ 16) ++ '-' :: hexChars 12 (v % 2 ^ 48)))) := rfl
  rw [hdata]
  simp only [List.filter_append, List.filter_cons, hexChars_filter_ne_dash]
  norm_num

/-- The 32 hex digits of a 128-bit value split into the five canonical
blocks. -/
theorem hexChars_32_split (v : Nat) :
    hexChars 32 v =
      hexChars 8 (v / 2 ^ 96) ++
        (hexChars 4 (v / 2 ^ 80 % 2 ^ 16) ++
          (hexChars 4 (v / 2 ^ 64 % 2 ^ 16) ++
            (hexChars 4 (v / 2 ^ 48 % 2 ^ 16) ++ hexChars 12 (v % 2 ^ 48)))) := by
  have h1 := hexChars_add 24 8 v
  have h2 := hexChars_add 20 4 (v % 16 ^ 24)
  have h3 := hexChars_add 16 4 (v % 16 ^ 24 % 16 ^ 20)
  have h4 := hexChars_add 12 4 (v % 16 ^ 24 % 16 ^ 20 % 16 ^ 16)
  norm_num at h1 h2 h3 h4
  rw [show (32 : Nat) = 8 + 24 from rfl] at *
  rw [h1, h2, h3, h4]
  have e1 : v % 79228162514264337593543950336 / 1208925819614629174706176
      = v / 1208925819614629174706176 % 65536 := by
    have h := Nat.mod_mul_right_div_self v 1208925819614629174706176 65536
    norm_num at h
    exact h
  have e2 : v % 1208925819614629174706176 / 18446744073709551616
      = v / 18446744073709551616 % 65536 := by
    have h := Nat.mod_mul_right_div_self v 18446744073709551616 65536
    norm_num at h
    exact h
  have e3 : v % 18446744073709551616 / 281474976710656
      = v / 281474976710656 % 65536 := by
    have h := Nat.mod_mul_right_div_self v 281474976710656 65536
    norm_num at h
    exact h
  norm_num [e1, e2, e3]

/-- `str(uuid)` parses back to the same 128-bit value — the
canonical-form round trip of the Python UUID type. -/
theorem pyUuidParse_uuidCanonical (v : Nat) (hv : v < 2 ^ 128) :
    pyUuidParse (uuidCanonical v) = some v := by
  have hmem := mem_uuidCanonical v
  have hcolon : ':' ∉ (uuidCanonical v).data := by
    intro hc
    rcases hmem ':' hc with h | h
    · exact absurd h (by decide)
    · exact absurd h (by decide)
  have hbrace : ∀ c ∈ (uuidCanonical v).data,
      (decide (c = '{' ∨ c = '}')) = false := by
    intro c hc
    rcases hmem c hc with h | h
    · have hspec := isHexLowerChar_not_special c h
      simp [hspec.2.2.2.1, hspec.2.2.2.2.1]
    · subst h; decide
  unfold pyUuidParse
  rw [removeAllSub_of_not_mem "urn:".data ':' (by decide) _ hcolon,
    removeAllSub_of_not_mem "uuid:".data ':' (by decide) _ hcolon]
  have hstrip : stripBraces (uuidCanonical v).data = (uuidCanonical v).data := by
    unfold stripBraces
    rw [dropWhile_eq_self_of_all _ hbrace,
      dropWhile_eq_self_of_all _ (fun c hc => hbrace c (List.mem_reverse.mp hc)),
      List.reverse_reverse]
  rw [hstrip, uuidCanonical_filter, ← hexChars_32_split]
  unfold uuidFromHexDigits
  rw [if_pos (hexChars_length 32 v)]
  have h1632 : (16 : Nat) ^ 32 = 2 ^ 128 := by norm_num
  rw [pyInt16Parse_hexChars 32 v (by omega) (by rw [h1632]; exact hv)]
  show (if 0 ≤ (v : Int) ∧ (v : Int) < 2 ^ 128 then some (v : Int).toNat else none) = some v
  rw [if_pos ⟨Int.natCast_nonneg v, by exact_mod_cast hv⟩, Int.toNat_natCast]

/-- A parsed UUID value is within range. -/
theorem pyUuidParse_lt (s : String) (v : Nat) (h : pyUuidParse s = some v) :
    v < 2 ^ 128 := by
  unfold pyUuidParse uuidFromHexDigits at h
  split at h
  · cases hp : pyInt16Parse
        ((stripBraces (removeAllSub "uuid:".data (removeAllSub "urn:".data s.data))).filter
          (· ≠ '-')) with
    | none => rw [hp] at h; exact absurd h (by simp)
    | some w =>
      rw [hp] at h
      change (if 0 ≤ w ∧ w < 2 ^ 128 then some w.toNat else none) = some v at h
      split at h
      · rename_i hcond
        obtain ⟨h1, h2⟩ := hcond
        injection h with hval
        omega
      · exact absurd h (by simp)
  · exact absurd h (by simp)

/-- **C7** — for `GET /transactions/{id}` by an authenticated caller: a
syntactically valid UUID whose record exists under another user yields the
distinguished 403 permission error and the record is not returned; a
non-UUID path parameter yields 400; a valid UUID with no record yields
404.  The cache hypothesis allows a miss or a coherent hit (the cached
entry equal to the stored row). -/
theorem c7_cross_user_read_refused (db : List Tx) (cache : List (String × Tx))
    (tid : String) :
    (∀ v t u, pyUuidParse tid = some v →
      (cacheGet cache ("transaction:" ++ uuidCanonical v) = none ∨
        cacheGet cache ("transaction:" ++ uuidCanonical v) = some t) →
      db.find? (fun t' => t'.id = v) = some t →
      t.user_id ≠ u →
      getTransactionRoute db cache tid (some u) = .forbidden) ∧
    (pyUuidParse tid = none →
      ∀ cu, getTransactionRoute db cache tid cu = .badRequest) ∧
    (∀ v, pyUuidParse tid = some v →
      cacheGet cache ("transaction:" ++ uuidCanonical v) = none →
      db.find? (fun t' => t'.id = v) = none →
      ∀ cu, getTransactionRoute db cache tid cu = .notFound) := by
  refine ⟨?_, ?_, ?_⟩
  · intro v t u hv hcache hfind hne
    have hvlt := pyUuidParse_lt tid v hv
    unfold getTransactionRoute serviceGetTransaction
    rcases hcache with hc | hc
    · simp only [hv, hc, pyUuidParse_uuidCanonical v hvlt, hfind]
      simp [hne]
    · simp only [hv, hc]
      simp [hne]
  · intro hv cu
    unfold getTransactionRoute
    rw [hv]
  · intro v hv hcache hfind cu
    have hvlt := pyUuidParse_lt tid v hv
    unfold getTransactionRoute serviceGetTransaction
    simp only [hv, hcache, pyUuidParse_uuidCanonical v hvlt, hfind]

set_option maxRecDepth 8192 in
/-- Witness for C7: user `u1` reading `u2`'s record gets 403, a malformed
id gets 400, an absent id gets 404. -/
theorem c7_witness :
    getTransactionRoute [sampleTx 7 "u2" 1] []
      "00000000-0000-0000-0000-000000000007" (some "u1") = .forbidden ∧
    getTransactionRoute [sampleTx 7 "u2" 1] [] "not-a-uuid" (some "u1") = .badRequest ∧
    getTransactionRoute [sampleTx 7 "u2" 1] []
      "00000000-0000-0000-0000-000000000008" (some "u1") = .notFound :=
  ⟨(c7_cross_user_read_refused [sampleTx 7 "u2" 1] []
      "00000000-0000-0000-0000-000000000007").1 7 (sampleTx 7 "u2" 1) "u1"
      (by decide) (Or.inl (by decide)) (by decide) (by decide),
   (c7_cross_user_read_refused [sampleTx 7 "u2" 1] [] "not-a-uuid").2.1
      (by decide) (some "u1"),
   (c7_cross_user_read_refused [sampleTx 7 "u2" 1]  []
      "00000000-0000-0000-0000-000000000008").2.2 8 (by decide) (by decide)
      (by decide) (some "u1")⟩

/-- **C1 (counterexample)** — the claim is false on the code: for a
`transaction.created` message whose index upsert fails for a reason other
than an open breaker **and** whose audit write fails, the consumer still
marks the fingerprint processed and acknowledges, and pushes nothing to
the DLQ — the claim requires a DLQ push and no acknowledgement. -/
theorem c1_counterexample :
    ¬ ClaimC1At ⟨false, .otherFail, false, false⟩
        ⟨some "transaction.created", true, true⟩ false := by
  unfold ClaimC1At
  decide

/-- **C1 (amended)** — what `_process_batch` actually does for every
`transaction.created`/`transaction.updated` message that is present,
non-duplicate and raises nothing: the index upsert and the audit write are
attempted, and the message is marked processed and acknowledged
**unconditionally** — whatever the index outcome (success, breaker open,
or other failure) and whatever the audit outcome (`_write_to_audit_db`
swallows its own exceptions) — and it is never pushed to the DLQ. -/
theorem c1_amended_always_ack (env : MsgEnv) (m : ConsumerMsg)
    (h1 : isCreatedOrUpdated m = true) (h2 : m.hasTransaction = true)
    (h3 : env.isDup = false) (h4 : env.raises = false) :
    processMessage env m = ⟨true, true, true, false, true, true, false⟩ ∧
    ∀ b, (processBatch [(env, m)] b).dlq = [] := by
  have heff : processMessage env m = ⟨true, true, true, false, true, true, false⟩ := by
    have hcu : m.event_type = some "transaction.created" ∨
        m.event_type = some "transaction.updated" := by
      unfold isCreatedOrUpdated at h1
      simpa using h1
    unfold processMessage
    rw [h4, h2, h3]
    simp [hcu]
  refine ⟨heff, fun b => ?_⟩
  unfold processBatch dlqSent
  simp [heff]

/-- Witness for C1 (amended) at a concrete breaker-open index failure. -/
theorem c1_witness :
    processMessage ⟨false, .breakerOpen, true, false⟩
        ⟨some "transaction.updated", true, true⟩ =
      ⟨true, true, true, false, true, true, false⟩ ∧
    ∀ b, (processBatch [(⟨false, .breakerOpen, true, false⟩,
        ⟨some "transaction.updated", true, true⟩)] b).dlq = [] :=
  c1_amended_always_ack ⟨false, .breakerOpen, true, false⟩
    ⟨some "transaction.updated", true, true⟩ (by decide) (by decide) (by decide) (by decide)

/-- **C5 (counterexample)** — the claim is false on the code: a message
with an unknown event type (transaction present, breaker closed) is not
acknowledged; it is appended to the failed list and pushed to the DLQ. -/
theorem c5_counterexample :
    ¬ ClaimC5At ⟨false, .ok, true, false⟩
        ⟨some "transaction.frobbed", true, true⟩ false := by
  unfold ClaimC5At
  decide

/-- **C5 (amended)** — what `_process_batch` actually does: a message with
a **missing transaction payload** is acknowledged with no enrichment, no
fan-out writes and no DLQ push (as the claim says); but a message with an
**unknown event type** is enriched, then appended to the failed list — not
acknowledged — and pushed to the DLQ (unless the Elasticsearch breaker is
open at DLQ time, in which case it is neither acknowledged nor sent). -/
theorem c5_amended_poison_handling :
    (∀ (env : MsgEnv) (m : ConsumerMsg) b, m.hasTransaction = false →
      env.raises = false →
      processMessage env m = ⟨false, false, false, false, false, true, false⟩ ∧
      (processBatch [(env, m)] b).dlq = []) ∧
    (∀ (env : MsgEnv) (m : ConsumerMsg), isUnknownEventType m = true →
      m.hasTransaction = true → env.isDup = false → env.raises = false →
      processMessage env m = ⟨true, false, false, false, false, false, true⟩ ∧
      (processBatch [(env, m)] false).dlq = [m] ∧
      (processBatch [(env, m)] true).dlq = []) := by
  constructor
  · intro env m b hmt hr
    have heff : processMessage env m = ⟨false, false, false, false, false, true, false⟩ := by
      unfold processMessage
      rw [hr, hmt]
      simp
    refine ⟨heff, ?_⟩
    unfold processBatch dlqSent
    simp [heff]
  · intro env m hunk hmt hdup hr
    have hne : ¬(m.event_type = some "transaction.created" ∨
        m.event_type = some "transaction.updated") := by
      unfold isUnknownEventType at hunk
      simp only [Bool.and_eq_true, decide_eq_true_eq, bne_iff_ne, ne_eq] at hunk
      tauto
    have hned : m.event_type ≠ some "transaction.deleted" := by
      unfold isUnknownEventType at hunk
      simp only [Bool.and_eq_true, decide_eq_true_eq, bne_iff_ne, ne_eq] at hunk
      tauto
    have heff : processMessage env m = ⟨true, false, false, false, false, false, true⟩ := by
      unfold processMessage
      rw [hr, hmt, hdup]
      simp [hne, hned]
    refine ⟨heff, ?_, ?_⟩ <;>
      · unfold processBatch dlqSent
        simp [heff]

/-- Witness for C5 (amended) at concrete messages. -/
theorem c5_witness :
    (processMessage ⟨false, .ok, true, false⟩ ⟨some "transaction.created", false, false⟩ =
      ⟨false, false, false, false, false, true, false⟩ ∧
     (processBatch [(⟨false, .ok, true, false⟩,
        ⟨some "transaction.created", false, false⟩)] false).dlq = []) ∧
    (processMessage ⟨false, .ok, true, false⟩ ⟨some "transaction.frobbed", true, true⟩ =
      ⟨true, false, false, false, false, false, true⟩ ∧
     (processBatch [(⟨false, .ok, true, false⟩,
        ⟨some "transaction.frobbed", true, true⟩)] false).dlq =
       [⟨some "transaction.frobbed", true, true⟩] ∧
     (processBatch [(⟨false, .ok, true, false⟩,
        ⟨some "transaction.frobbed", true, true⟩)] true).dlq = []) :=
  ⟨c5_amended_poison_handling.1 ⟨false, .ok, true, false⟩
      ⟨some "transaction.created", false, false⟩ false (by decide) (by decide),
   c5_amended_poison_handling.2 ⟨false, .ok, true, false⟩
      ⟨some "transaction.frobbed", true, true⟩ (by decide) (by decide) (by decide)
      (by decide)⟩

/-- **C2 (code bug)** — `_build_cache_key` omits `start_date`/`end_date`,
`min_amount`/`max_amount` and `metadata_filters`, so queries that produce
different pages share a cache key; concretely, a run of two
`get_transactions` calls differing only in `min_amount` (1000.00 vs 10.00,
against a store holding one 100.00 transaction) collide on the key, and
the second call is served the first call's (empty) cached page even though
recomputing it from the store yields the row. -/
theorem c2_cache_key_collision :
    buildCacheKey "u1" (some { min_amount := some 100000 }) 1 20 =
      buildCacheKey "u1" (some { min_amount := some 1000 }) 1 20 ∧
    buildCacheKey "u1" (some { start_date := some (dt2024 0) }) 1 20 =
      buildCacheKey "u1" (some { end_date := some (dt2024 5) }) 1 20 ∧
    buildCacheKey "u1" (some { metadata_filters := some [("card_last_four", "5678")] }) 1 20 =
      buildCacheKey "u1" none 1 20 ∧
    (get_transactions
        (get_transactions [] [sampleTx 1 "u1" 1] "u1"
          (some { min_amount := some 100000 }) 1 20).2
        [sampleTx 1 "u1" 1] "u1" (some { min_amount := some 1000 }) 1 20).1.items = [] ∧
    (get_by_user_id [sampleTx 1 "u1" 1] "u1" (some { min_amount := some 1000 }) 1 20).1 =
      [sampleTx 1 "u1" 1] :=
  ⟨by decide, by decide, by decide, by decide, by decide⟩

/-- An expected failure never leaves the `OPEN` state: inside the window
the call is rejected unchanged, and an admitted half-open probe that fails
goes straight back to `OPEN`. -/
theorem cbCall_opn_failure_state (cfg : CBConfig) (s : CBState) (now : Nat)
    (he : cfg.enabled = true) (hs : s.state = .opn) :
    ((cbCall cfg s now .expectedFailure).2).state = .opn := by
  obtain ⟨st, fc, sc, lf⟩ := s
  simp only at hs
  subst hs
  unfold cbCall
  rw [he]
  simp only [Bool.not_true, if_false]
  cases hr : cbShouldAttemptReset cfg ⟨.opn, fc, sc, lf⟩ now with
  | true => simp [hr, cbOnFailure]
  | false => simp [hr]

/-- A run of expected failures keeps an `OPEN` breaker `OPEN`. -/
theorem cbRun_opn_failures (cfg : CBConfig) (he : cfg.enabled = true) :
    ∀ (times : List Nat) (s : CBState), s.state = .opn →
      (cbRun cfg s (times.map fun t => (t, .expectedFailure))).state = .opn := by
  intro times
  induction times with
  | nil => intro s hs; exact hs
  | cons t ts ih =>
    intro s hs
    exact ih _ (cbCall_opn_failure_state cfg s t he hs)

/-- One expected failure from `CLOSED`: the counter advances and the state
opens exactly when the threshold is reached. -/
theorem cbCall_closed_failure (cfg : CBConfig) (s : CBState) (now : Nat)
    (he : cfg.enabled = true) (hs : s.state = .closed) :
    (cbCall cfg s now .expectedFailure).2 =
      if cfg.failure_threshold ≤ s.failure_count + 1 then
        ⟨.opn, s.failure_count + 1, s.success_count, some now⟩
      else
        ⟨.closed, s.failure_count + 1, s.success_count, some now⟩ := by
  obtain ⟨st, fc, sc, lf⟩ := s
  simp only at hs
  subst hs
  unfold cbCall cbOnFailure
  rw [he]
  simp only [Bool.not_true, if_false]
  by_cases hth : cfg.failure_threshold ≤ fc + 1
  · simp [hth]
  · simp [hth]

/-- A run of at least `failure_threshold` consecutive expected failures
from `CLOSED` ends `OPEN`. -/
theorem cbRun_closed_failures_opn (cfg : CBConfig) (he : cfg.enabled = true)
    (hth : 1 ≤ cfg.failure_threshold) :
    ∀ (times : List Nat) (s : CBState), s.state = .closed →
      cfg.failure_threshold ≤ s.failure_count + times.length →
      1 ≤ times.length →
      (cbRun cfg s (times.map fun t => (t, .expectedFailure))).state = .opn := by
  intro times
  induction times with
  | nil => intro s _ _ hlen; simp at hlen
  | cons t ts ih =>
    intro s hs hcount _
    show (cbRun cfg (cbCall cfg s t .expectedFailure).2
      (ts.map fun t => (t, .expectedFailure))).state = .opn
    rw [cbCall_closed_failure cfg s t he hs]
    by_cases hth1 : cfg.failure_threshold ≤ s.failure_count + 1
    · rw [if_pos hth1]
      exact cbRun_opn_failures cfg he ts _ rfl
    · rw [if_neg hth1]
      have hlen : 1 ≤ ts.length := by
        simp only [List.length_cons] at hcount
        omega
      refine ih ⟨.closed, s.failure_count + 1, s.success_count, some t⟩ rfl ?_ hlen
      simp only [List.length_cons] at hcount
      simp only
      omega

/-- **C4** — the breaker lifecycle (with gating enabled and a positive
timeout and threshold): (a) `failure_threshold` or more consecutive
expected failures starting from `CLOSED` leave the breaker `OPEN`;
(b) while `OPEN`, before `timeout` seconds have elapsed since the last
failure, every call is rejected with the breaker-open error without
invoking the wrapped function and without changing state; (c) the first
call after the timeout is admitted in `HALF_OPEN` (a success leaves the
breaker `HALF_OPEN` with one recorded success); (d) two successes in
`HALF_OPEN` return it to `CLOSED` with the failure counter reset; (e) any
expected failure in `HALF_OPEN` returns it to `OPEN` and resets the
failure timer to the failure's time. -/
theorem c4_breaker_lifecycle (cfg : CBConfig) (he : cfg.enabled = true)
    (hto : 1 ≤ cfg.timeout) (hth : 1 ≤ cfg.failure_threshold) :
    (∀ (s : CBState) (times : List Nat), s.state = .closed →
      cfg.failure_threshold ≤ times.length →
      (cbRun cfg s (times.map fun t => (t, .expectedFailure))).state = .opn) ∧
    (∀ (s : CBState) (t now : Nat) (o : CallOutcome), s.state = .opn →
      s.last_failure_time = some t → now - t < cfg.timeout →
      cbCall cfg s now o = (.rejected, s)) ∧
    (∀ (s : CBState) (t now : Nat), s.state = .opn → s.last_failure_time = some t →
      cfg.timeout ≤ now - t →
      cbCall cfg s now .success =
        (.invoked .success,
          ⟨.halfOpen, s.failure_count, 1, s.last_failure_time⟩)) ∧
    (∀ (s : CBState) (t1 t2 : Nat), s.state = .halfOpen → s.success_count = 0 →
      (cbCall cfg s t1 .success).2.state = .halfOpen ∧
      (cbCall cfg s t1 .success).2.success_count = 1 ∧
      (cbCall cfg (cbCall cfg s t1 .success).2 t2 .success).2 =
        ⟨.closed, 0, 0, s.last_failure_time⟩) ∧
    (∀ (s : CBState) (now : Nat), s.state = .halfOpen →
      (cbCall cfg s now .expectedFailure).2 =
        ⟨.opn, s.failure_count + 1, 0, some now⟩) := by
  refine ⟨?_, ?_, ?_, ?_, ?_⟩
  · intro s times hs hlen
    exact cbRun_closed_failures_opn cfg he hth times s hs (by omega) (by omega)
  · intro s t now o hs hlast hlt
    obtain ⟨st, fc, sc, lf⟩ := s
    simp only at hs hlast
    subst hs; subst hlast
    unfold cbCall
    rw [he]
    simp only [Bool.not_true, if_false]
    have hr : cbShouldAttemptReset cfg ⟨.opn, fc, sc, some t⟩ now = false := by
      unfold cbShouldAttemptReset
      simp only [decide_eq_false_iff_not]
      omega
    simp [hr]
  · intro s t now hs hlast hge
    obtain ⟨st, fc, sc, lf⟩ := s
    simp only at hs hlast
    subst hs; subst hlast
    unfold cbCall
    rw [he]
    simp only [Bool.not_true, if_false]
    have hr : cbShouldAttemptReset cfg ⟨.opn, fc, sc, some t⟩ now = true := by
      unfold cbShouldAttemptReset
      simp only [decide_eq_true_eq]
      omega
    simp [hr, cbOnSuccess]
  · intro s t1 t2 hs hsc
    obtain ⟨st, fc, sc, lf⟩ := s
    simp only at hs hsc
    subst hs; subst hsc
    have h1 : cbCall cfg ⟨.halfOpen, fc, 0, lf⟩ t1 .success =
        (.invoked .success, ⟨.halfOpen, fc, 1, lf⟩) := by
      unfold cbCall cbOnSuccess
      rw [he]
      simp
    rw [h1]
    have h2 : cbCall cfg ⟨.halfOpen, fc, 1, lf⟩ t2 .success =
        (.invoked .success, ⟨.closed, 0, 0, lf⟩) := by
      unfold cbCall cbOnSuccess
      rw [he]
      simp
    rw [h2]
    exact ⟨rfl, rfl, rfl⟩
  · intro s now hs
    obtain ⟨st, fc, sc, lf⟩ := s
    simp only at hs
    subst hs
    unfold cbCall cbOnFailure
    rw [he]
    simp

/-- Witness for C4 at the default configuration (threshold 5, timeout
60s): five failures at time 0 open a fresh breaker; a call at second 30 is
rejected; the state after the open run is `⟨OPEN, 5, 0, last failure 0⟩`,
whose probe at second 60 is admitted in `HALF_OPEN`. -/
theorem c4_witness :
    (cbRun ⟨true, 5, 60⟩ cbInit
      ([0, 0, 0, 0, 0].map fun t => (t, .expectedFailure))).state = .opn ∧
    cbCall ⟨true, 5, 60⟩ ⟨.opn, 5, 0, some 0⟩ 30 .success = (.rejected, ⟨.opn, 5, 0, some 0⟩) ∧
    cbCall ⟨true, 5, 60⟩ ⟨.opn, 5, 0, some 0⟩ 60 .success =
      (.invoked .success, ⟨.halfOpen, 5, 1, some 0⟩) ∧
    (cbCall ⟨true, 5, 60⟩ (cbCall ⟨true, 5, 60⟩ ⟨.halfOpen, 5, 0, some 0⟩ 61 .success).2
      62 .success).2 = ⟨.closed, 0, 0, some 0⟩ ∧
    cbCall ⟨true, 5, 60⟩ ⟨.halfOpen, 5, 0, some 0⟩ 61 .expectedFailure =
      (.invoked .expectedFailure, ⟨.opn, 6, 0, some 61⟩) := by
  have h := c4_breaker_lifecycle ⟨true, 5, 60⟩ rfl (by decide) (by decide)
  refine ⟨h.1 cbInit [0, 0, 0, 0, 0] rfl (by decide),
          h.2.1 ⟨.opn, 5, 0, some 0⟩ 0 30 .success rfl rfl (by decide),
          h.2.2.1 ⟨.opn, 5, 0, some 0⟩ 0 60 rfl rfl (by decide),
          (h.2.2.2.1 ⟨.halfOpen, 5, 0, some 0⟩ 61 62 rfl rfl).2.2,
          ?_⟩
  have he := h.2.2.2.2 ⟨.halfOpen, 5, 0, some 0⟩ 61 rfl
  rw [show cbCall ⟨true, 5, 60⟩ ⟨.halfOpen, 5, 0, some 0⟩ 61 .expectedFailure =
    ((cbCall ⟨true, 5, 60⟩ ⟨.halfOpen, 5, 0, some 0⟩ 61 .expectedFailure).1,
     (cbCall ⟨true, 5, 60⟩ ⟨.halfOpen, 5, 0, some 0⟩ 61 .expectedFailure).2) from rfl, he]
  exact congrArg (Prod.mk · _) (by decide)

/-! ### Cursor codec round trip (C8) -/

/-- Decimal digits round-trip through their character. -/
theorem parseDigit_digitChar10 : ∀ d, d < 10 → parseDigit (digitChar10 d) = some d := by
  decide

/-- `parse2` reads back `pad2`. -/
theorem parse2_pad2 (n : Nat) (h : n < 100) (r : List Char) :
    parse2 (pad2 n ++ r) = some (n, r) := by
  have h1 := parseDigit_digitChar10 (n / 10) (by omega)
  have h2 := parseDigit_digitChar10 (n % 10) (by omega)
  show parse2 (digitChar10 (n / 10) :: digitChar10 (n % 10) :: r) = some (n, r)
  simp only [parse2, h1, h2, Option.bind_eq_bind, Option.some_bind]
  have harith : n / 10 * 10 + n % 10 = n := by omega
  rw [harith]

/-- `parse4` reads back `pad4`. -/
theorem parse4_pad4 (n : Nat) (h : n < 10000) (r : List Char) :
    parse4 (pad4 n ++ r) = some (n, r) := by
  have h1 := parseDigit_digitChar10 (n / 1000) (by omega)
  have h2 := parseDigit_digitChar10 (n / 100 % 10) (by omega)
  have h3 := parseDigit_digitChar10 (n / 10 % 10) (by omega)
  have h4 := parseDigit_digitChar10 (n % 10) (by omega)
  show parse4 (digitChar10 (n / 1000) :: digitChar10 (n / 100 % 10) ::
    digitChar10 (n / 10 % 10) :: digitChar10 (n % 10) :: r) = some (n, r)
  simp only [parse4, h1, h2, h3, h4, Option.bind_eq_bind, Option.some_bind]
  have harith : ((n / 1000 * 10 + n / 100 % 10) * 10 + n / 10 % 10) * 10 + n % 10 = n := by
    omega
  rw [harith]

/-- `parse6` reads back `pad6`. -/
theorem parse6_pad6 (n : Nat) (h : n < 1000000) (r : List Char) :
    parse6 (pad6 n ++ r) = some (n, r) := by
  have h1 := parseDigit_digitChar10 (n / 100000) (by omega)
  have h2 := parseDigit_digitChar10 (n / 10000 % 10) (by omega)
  have h3 := parseDigit_digitChar10 (n / 1000 % 10) (by omega)
  have h4 := parseDigit_digitChar10 (n / 100 % 10) (by omega)
  have h5 := parseDigit_digitChar10 (n / 10 % 10) (by omega)
  have h6 := parseDigit_digitChar10 (n % 10) (by omega)
  show parse6 (digitChar10 (n / 100000) :: digitChar10 (n / 10000 % 10) ::
    digitChar10 (n / 1000 % 10) :: digitChar10 (n / 100 % 10) ::
    digitChar10 (n / 10 % 10) :: digitChar10 (n % 10) :: r) = some (n, r)
  simp only [parse6, h1, h2, h3, h4, h5, h6, Option.bind_eq_bind, Option.some_bind]
  have harith : (((((n / 100000) * 10 + n / 10000 % 10) * 10 + n / 1000 % 10) * 10
      + n / 100 % 10) * 10 + n / 10 % 10) * 10 + n % 10 = n := by omega
  rw [harith]

/-- `expectChar` consumes its character. -/
theorem expectChar_cons (c : Char) (r : List Char) : expectChar c (c :: r) = some r := by
  simp [expectChar]

/-- The timezone suffix printed by `isoformat` parses back to the offset. -/
theorem parseTzSuffix_offset (o : Int) (h : o.natAbs ≤ 1439) :
    parseTzSuffix ((if 0 ≤ o then '+' else '-') ::
      (pad2 (o.natAbs / 60) ++ ':' :: pad2 (o.natAbs % 60))) = some (some o) := by
  rw [← List.append_nil (pad2 (o.natAbs % 60))]
  have e1 := parse2_pad2 (o.natAbs / 60) (by omega) (':' :: (pad2 (o.natAbs % 60) ++ []))
  have e2 := parse2_pad2 (o.natAbs % 60) (by omega) []
  have harith : o.natAbs / 60 * 60 + o.natAbs % 60 = o.natAbs := by omega
  have hcond : o.natAbs % 60 ≤ 59 ∧ o.natAbs / 60 * 60 + o.natAbs % 60 ≤ 1439 :=
    ⟨by omega, by omega⟩
  by_cases h0 : 0 ≤ o
  · rw [if_pos h0]
    simp only [parseTzSuffix, e1, e2, Option.bind_eq_bind, Option.some_bind,
      expectChar_cons]
    rw [if_pos (Or.inl trivial), if_pos ⟨trivial, hcond.1, hcond.2⟩, if_pos trivial]
    simp only [Option.some.injEq]
    omega
  · rw [if_neg h0]
    simp only [parseTzSuffix, e1, e2, Option.bind_eq_bind, Option.some_bind,
      expectChar_cons]
    rw [if_pos (Or.inr trivial), if_pos ⟨trivial, hcond.1, hcond.2⟩,
      if_neg (by decide)]
    simp only [Option.some.injEq]
    omega

set_option maxHeartbeats 2000000 in
theorem fromiso_isoformat (d : PyDatetime) (h : d.Valid) :
    fromisoformatChars (isoformatChars d) = some d := by
  obtain ⟨y, mo, da, ho, mi, se, us, tz⟩ := d
  unfold PyDatetime.Valid at h
  dsimp only at h
  obtain ⟨hy1, hy2, hm1, hm2, hd1, hd2, hh, hmi, hs, hus, htz⟩ := h
  have p4y : ∀ r, parse4 (pad4 y ++ r) = some (y, r) := fun r => parse4_pad4 y (by omega) r
  have p2mo : ∀ r, parse2 (pad2 mo ++ r) = some (mo, r) := fun r => parse2_pad2 mo (by omega) r
  have p2da : ∀ r, parse2 (pad2 da ++ r) = some (da, r) := by
    intro r
    refine parse2_pad2 da ?_ r
    have : daysInMonth y mo ≤ 31 := by
      unfold daysInMonth
      split <;> try split
      all_goals omega
    omega
  have p2ho : ∀ r, parse2 (pad2 ho ++ r) = some (ho, r) := fun r => parse2_pad2 ho (by omega) r
  have p2mi : ∀ r, parse2 (pad2 mi ++ r) = some (mi, r) := fun r => parse2_pad2 mi (by omega) r
  have p2se : ∀ r, parse2 (pad2 se ++ r) = some (se, r) := fun r => parse2_pad2 se (by omega) r
  have p6us : ∀ r, parse6 (pad6 us ++ r) = some (us, r) := fun r => parse6_pad6 us (by omega) r
  have hvalid : PyDatetime.Valid ⟨y, mo, da, ho, mi, se, us, tz⟩ :=
    ⟨hy1, hy2, hm1, hm2, hd1, hd2, hh, hmi, hs, hus, htz⟩
  cases tz with
  | none =>
    by_cases hus0 : us = 0
    · subst hus0
      simp only [isoformatChars, fromisoformatChars, p4y, p2mo, p2da, p2ho, p2mi, p2se,
        Option.bind_eq_bind, Option.some_bind, expectChar_cons, if_pos rfl,
        List.nil_append, List.append_nil]
      show (if PyDatetime.Valid ⟨y, mo, da, ho, mi, se, 0, none⟩ then
        some (⟨y, mo, da, ho, mi, se, 0, none⟩ : PyDatetime) else none) = _
      rw [if_pos hvalid]
    · simp only [isoformatChars, fromisoformatChars, p4y, p2mo, p2da, p2ho, p2mi, p2se,
        Option.bind_eq_bind, Option.some_bind, expectChar_cons, if_neg hus0,
        List.append_nil]
      have hfrac : parseFracSuffix ('.' :: pad6 us) = some (us, []) := by
        show (if ('.' : Char) = '.' then parse6 (pad6 us) else some (0, '.' :: pad6 us))
          = some (us, [])
        rw [if_pos rfl, ← List.append_nil (pad6 us), p6us]
      rw [hfrac]
      show (if PyDatetime.Valid ⟨y, mo, da, ho, mi, se, us, none⟩ then
        some (⟨y, mo, da, ho, mi, se, us, none⟩ : PyDatetime) else none) = _
      rw [if_pos hvalid]
  | some o =>
    have hoabs : o.natAbs ≤ 1439 := htz o rfl
    have hsign : (if (0 : Int) ≤ o then '+' else '-') ≠ '.' := by
      by_cases h0 : 0 ≤ o
      · rw [if_pos h0]; decide
      · rw [if_neg h0]; decide
    have htzp := parseTzSuffix_offset o hoabs
    by_cases hus0 : us = 0
    · subst hus0
      simp only [isoformatChars, fromisoformatChars, p4y, p2mo, p2da, p2ho, p2mi, p2se,
        Option.bind_eq_bind, Option.some_bind, expectChar_cons, if_pos rfl, if_true,
        List.nil_append]
      have hfrac : parseFracSuffix ((if (0 : Int) ≤ o then '+' else '-') ::
          (pad2 (o.natAbs / 60) ++ ':' :: pad2 (o.natAbs % 60))) =
          some (0, (if (0 : Int) ≤ o then '+' else '-') ::
            (pad2 (o.natAbs / 60) ++ ':' :: pad2 (o.natAbs % 60))) := by
        show (if (if (0 : Int) ≤ o then '+' else '-') = '.' then _ else
          some (0, (if (0 : Int) ≤ o then '+' else '-') ::
            (pad2 (o.natAbs / 60) ++ ':' :: pad2 (o.natAbs % 60)))) = _
        rw [if_neg hsign]
      rw [hfrac]
      show (do
        let tz' ← parseTzSuffix ((if (0 : Int) ≤ o then '+' else '-') ::
          (pad2 (o.natAbs / 60) ++ ':' :: pad2 (o.natAbs % 60)))
        let dt : PyDatetime := ⟨y, mo, da, ho, mi, se, 0, tz'⟩
        if dt.Valid then some dt else none) = some ⟨y, mo, da, ho, mi, se, 0, some o⟩
      rw [htzp]
      show (if PyDatetime.Valid ⟨y, mo, da, ho, mi, se, 0, some o⟩ then
        some (⟨y, mo, da, ho, mi, se, 0, some o⟩ : PyDatetime) else none) = _
      rw [if_pos hvalid]
    · simp only [isoformatChars, fromisoformatChars, p4y, p2mo, p2da, p2ho, p2mi, p2se,
        Option.bind_eq_bind, Option.some_bind, expectChar_cons, if_neg hus0,
        List.cons_append]
      have hfrac : parseFracSuffix ('.' :: (pad6 us ++
          ((if (0 : Int) ≤ o then '+' else '-') ::
            (pad2 (o.natAbs / 60) ++ ':' :: pad2 (o.natAbs % 60))))) =
          some (us, (if (0 : Int) ≤ o then '+' else '-') ::
            (pad2 (o.natAbs / 60) ++ ':' :: pad2 (o.natAbs % 60))) := by
        show (if ('.' : Char) = '.' then parse6 (pad6 us ++
          ((if (0 : Int) ≤ o then '+' else '-') ::
            (pad2 (o.natAbs / 60) ++ ':' :: pad2 (o.natAbs % 60))))
          else some (0, '.' :: (pad6 us ++
            ((if (0 : Int) ≤ o then '+' else '-') ::
              (pad2 (o.natAbs / 60) ++ ':' :: pad2 (o.natAbs % 60)))))) =
          some (us, (if (0 : Int) ≤ o then '+' else '-') ::
            (pad2 (o.natAbs / 60) ++ ':' :: pad2 (o.natAbs % 60)))
        rw [if_pos rfl, p6us]
      rw [hfrac]
      show (do
        let tz' ← parseTzSuffix ((if (0 : Int) ≤ o then '+' else '-') ::
          (pad2 (o.natAbs / 60) ++ ':' :: pad2 (o.natAbs % 60)))
        let dt : PyDatetime := ⟨y, mo, da, ho, mi, se, us, tz'⟩
        if dt.Valid then some dt else none) = some ⟨y, mo, da, ho, mi, se, us, some o⟩
      rw [htzp]
      show (if PyDatetime.Valid ⟨y, mo, da, ho, mi, se, us, some o⟩ then
        some (⟨y, mo, da, ho, mi, se, us, some o⟩ : PyDatetime) else none) = _
      rw [if_pos hvalid]

/-- Decimal digit characters are plain JSON characters. -/
theorem digitChar10_plain (d : Nat) (h : d < 10) : jsonPlainChar (digitChar10 d) = true := by
  interval_cases d <;> decide

/-- `pad2` output is plain. -/
theorem pad2_plain (n : Nat) (h : n < 100) : ∀ c ∈ pad2 n, jsonPlainChar c = true := by
  intro c hc
  simp only [pad2, List.mem_cons, List.not_mem_nil, or_false] at hc
  rcases hc with hc | hc <;> subst hc <;> exact digitChar10_plain _ (by omega)

/-- `pad4` output is plain. -/
theorem pad4_plain (n : Nat) (h : n < 10000) : ∀ c ∈ pad4 n, jsonPlainChar c = true := by
  intro c hc
  simp only [pad4, List.mem_cons, List.not_mem_nil, or_false] at hc
  rcases hc with hc | hc | hc | hc <;> subst hc <;> exact digitChar10_plain _ (by omega)

/-- `pad6` output is plain. -/
theorem pad6_plain (n : Nat) (h : n < 1000000) : ∀ c ∈ pad6 n, jsonPlainChar c = true := by
  intro c hc
  simp only [pad6, List.mem_cons, List.not_mem_nil, or_false] at hc
  rcases hc with hc | hc | hc | hc | hc | hc <;> subst hc <;>
    exact digitChar10_plain _ (by omega)

/-- Plainness is preserved by append. -/
theorem plain_append (X Y : List Char) (hX : ∀ c ∈ X, jsonPlainChar c = true)
    (hY : ∀ c ∈ Y, jsonPlainChar c = true) : ∀ c ∈ X ++ Y, jsonPlainChar c = true := by
  intro c hc
  rcases List.mem_append.mp hc with h | h
  exacts [hX c h, hY c h]

/-- Plainness is preserved by cons. -/
theorem plain_cons (x : Char) (Y : List Char) (hx : jsonPlainChar x = true)
    (hY : ∀ c ∈ Y, jsonPlainChar c = true) : ∀ c ∈ x :: Y, jsonPlainChar c = true := by
  intro c hc
  rcases List.mem_cons.mp hc with h | h
  · subst h; exact hx
  · exact hY c h

/-- Every character `isoformat` prints for a valid datetime is a plain
JSON character (printable ASCII, no quote, no backslash). -/
theorem isoformat_plain (d : PyDatetime) (h : d.Valid) :
    ∀ c ∈ isoformatChars d, jsonPlainChar c = true := by
  obtain ⟨y, mo, da, ho, mi, se, us, tz⟩ := d
  unfold PyDatetime.Valid at h
  dsimp only at h
  obtain ⟨hy1, hy2, hm1, hm2, hd1, hd2, hh, hmi, hs, hus, htz⟩ := h
  have hdim : daysInMonth y mo ≤ 31 := by
    unfold daysInMonth
    split <;> try split
    all_goals omega
  have hnil : ∀ c ∈ ([] : List Char), jsonPlainChar c = true := by
    intro c hc
    exact absurd hc (List.not_mem_nil c)
  unfold isoformatChars
  dsimp only
  refine plain_append _ _ (pad4_plain y (by omega)) (plain_cons _ _ (by decide) ?_)
  refine plain_append _ _ (pad2_plain mo (by omega)) (plain_cons _ _ (by decide) ?_)
  refine plain_append _ _ (pad2_plain da (by omega)) (plain_cons _ _ (by decide) ?_)
  refine plain_append _ _ (pad2_plain ho (by omega)) (plain_cons _ _ (by decide) ?_)
  refine plain_append _ _ (pad2_plain mi (by omega)) (plain_cons _ _ (by decide) ?_)
  refine plain_append _ _ (pad2_plain se (by omega)) (plain_append _ _ ?_ ?_)
  · by_cases hus0 : us = 0
    · rw [if_pos hus0]; exact hnil
    · rw [if_neg hus0]
      exact plain_cons _ _ (by decide) (pad6_plain us (by omega))
  · rcases tz with _ | o
    · exact hnil
    · have ho1439 : o.natAbs ≤ 1439 := htz o rfl
      have hsign : jsonPlainChar (if 0 ≤ o then '+' else '-') = true := by
        by_cases h0 : (0 : Int) ≤ o
        · rw [if_pos h0]; decide
        · rw [if_neg h0]; decide
      exact plain_cons _ _ hsign (plain_append _ _ (pad2_plain _ (by omega))
        (plain_cons _ _ (by decide) (pad2_plain _ (by omega))))

/-- Every character of a canonical UUID string is a plain JSON character. -/
theorem uuidString_plain (s : String) (h : isCanonicalUuidString s = true) :
    ∀ c ∈ s.data, jsonPlainChar c = true := by
  intro c hc
  simp only [isCanonicalUuidString, Bool.and_eq_true, decide_eq_true_eq,
    List.all_eq_true] at h
  obtain ⟨hlen, hall⟩ := h
  obtain ⟨i, hi, hget⟩ := List.mem_iff_getElem.mp hc
  have h36 : i < 36 := by omega
  have hcond := hall i (List.mem_range.mpr h36)
  rw [List.getD_eq_getElem s.data ' ' hi, hget] at hcond
  split at hcond
  · simp only [decide_eq_true_eq] at hcond
    subst hcond; decide
  · simp only [isHexLowerChar, decide_eq_true_eq] at hcond
    simp only [jsonPlainChar, decide_eq_true_eq]
    refine ⟨by omega, by omega, ?_, ?_⟩
    · intro he; subst he
      rcases hcond with ⟨a, _⟩ | ⟨a, _⟩ <;> exact absurd a (by decide)
    · intro he; subst he
      rcases hcond with ⟨_, b⟩ | ⟨a, _⟩
      · exact absurd b (by decide)
      · exact absurd a (by decide)

/-- `json.dumps` emits a plain character verbatim. -/
theorem jsonEscapeChar_plain (c : Char) (h : jsonPlainChar c = true) :
    jsonEscapeChar c = [c] := by
  simp only [jsonPlainChar, decide_eq_true_eq] at h
  obtain ⟨h1, h2, h3, h4⟩ := h
  unfold jsonEscapeChar
  dsimp only
  rw [if_neg h3, if_neg h4, if_neg (by omega), if_neg (by omega), if_neg (by omega),
    if_neg (by omega), if_neg (by omega), if_pos ⟨h1, h2⟩]

/-- Escaping a plain string is the identity. -/
theorem flatten_escape_plain (s : List Char) (h : ∀ c ∈ s, jsonPlainChar c = true) :
    (s.map jsonEscapeChar).flatten = s := by
  induction s with
  | nil => rfl
  | cons c t ih =>
    rw [List.map_cons, List.flatten_cons, jsonEscapeChar_plain c (h c (List.mem_cons_self c t)),
      ih (fun x hx => h x (List.mem_cons_of_mem c hx))]
    rfl

/-- The string-literal body parser reads back a plain string (fuel form). -/
theorem parseJsonStringBodyFuel_plain (s : List Char) : ∀ (f : Nat) (r : List Char),
    s.length < f → (∀ c ∈ s, jsonPlainChar c = true) →
    parseJsonStringBodyFuel f (s ++ '"' :: r) = some (s, r) := by
  induction s with
  | nil =>
    intro f r hf _
    obtain ⟨f', rfl⟩ : ∃ f', f = f' + 1 := ⟨f - 1, by omega⟩
    rfl
  | cons c t ih =>
    intro f r hf h
    obtain ⟨f', rfl⟩ : ∃ f', f = f' + 1 := ⟨f - 1, by omega⟩
    have hc := h c (List.mem_cons_self c t)
    simp only [jsonPlainChar, decide_eq_true_eq] at hc
    obtain ⟨h1, h2, h3, h4⟩ := hc
    rw [List.cons_append, parseJsonStringBodyFuel.eq_def]
    dsimp only
    rw [if_neg h3, if_neg h4, if_neg (by omega),
      ih f' r (by simp at hf; omega) (fun x hx => h x (List.mem_cons_of_mem c hx))]
    rfl

/-- The string-literal body parser reads back a plain string. -/
theorem parseJsonStringBody_plain (s : List Char) (r : List Char)
    (h : ∀ c ∈ s, jsonPlainChar c = true) :
    parseJsonStringBody (s ++ '"' :: r) = some (s, r) := by
  unfold parseJsonStringBody
  exact parseJsonStringBodyFuel_plain s _ r (by simp [List.length_append]; omega) h

/-- A plain string's JSON literal, explicitly. -/
theorem jsonStringLit_plain (s : List Char) (h : ∀ c ∈ s, jsonPlainChar c = true) :
    jsonStringLit s = '"' :: (s ++ ['"']) := by
  unfold jsonStringLit
  rw [flatten_escape_plain s h, List.cons_append]

/-- `parseJsonString` reads back a plain string literal. -/
theorem parseJsonString_lit (s : List Char) (r : List Char)
    (h : ∀ c ∈ s, jsonPlainChar c = true) :
    parseJsonString (jsonStringLit s ++ r) = some (s, r) := by
  rw [jsonStringLit_plain s h, List.cons_append, List.append_assoc]
  show (if ('"' : Char) = '"' then parseJsonStringBody (s ++ (['"'] ++ r)) else none) = some (s, r)
  rw [if_pos rfl]
  exact parseJsonStringBody_plain s r h

/-- `skipWs` keeps a non-whitespace head. -/
theorem skipWs_cons_not_ws (c : Char) (l : List Char) (h : isJsonWs c = false) :
    skipWs (c :: l) = c :: l := by
  simp [skipWs, List.dropWhile_cons, h]

/-- `skipWs` drops a whitespace head. -/
theorem skipWs_cons_ws (c : Char) (l : List Char) (h : isJsonWs c = true) :
    skipWs (c :: l) = skipWs l := by
  simp [skipWs, List.dropWhile_cons, h]

/-- `skipWs` fixes an input starting with a string literal. -/
theorem skipWs_stringLit_append (s : List Char) (r : List Char)
    (h : ∀ c ∈ s, jsonPlainChar c = true) :
    skipWs (jsonStringLit s ++ r) = jsonStringLit s ++ r := by
  rw [jsonStringLit_plain s h, List.cons_append]
  exact skipWs_cons_not_ws _ _ (by decide)

/-- `parseJsonMembers` ignores a leading whitespace character. -/
theorem parseJsonMembers_ws (f : Nat) (c : Char) (l : List Char) (h : isJsonWs c = true) :
    parseJsonMembers (f + 1) (c :: l) = parseJsonMembers (f + 1) l := by
  rw [parseJsonMembers.eq_def]
  conv_rhs => rw [parseJsonMembers.eq_def]
  dsimp only
  rw [skipWs_cons_ws c l h]

/-- `parseJsonMembers` reads back the members `json.dumps` printed,
for plain keys and values, given fuel at least the number of members. -/
theorem parseJsonMembers_dumps : ∀ (pairs : List (List Char × List Char)) (f : Nat) (r : List Char),
    pairs ≠ [] → pairs.length ≤ f + 1 →
    (∀ p ∈ pairs, (∀ c ∈ p.1, jsonPlainChar c = true) ∧ (∀ c ∈ p.2, jsonPlainChar c = true)) →
    parseJsonMembers (f + 1) (jsonMembers pairs ++ '}' :: r) = some (pairs, r) := by
  intro pairs
  induction pairs with
  | nil => intro f r hne; exact absurd rfl hne
  | cons kv rest ih =>
    intro f r _ hlen hplain
    obtain ⟨k, v⟩ := kv
    have hk := (hplain (k, v) (List.mem_cons_self _ _)).1
    have hv := (hplain (k, v) (List.mem_cons_self _ _)).2
    cases rest with
    | nil =>
      have e1 : jsonMembers [(k, v)] ++ '}' :: r =
          jsonStringLit k ++ (':' :: ' ' :: (jsonStringLit v ++ '}' :: r)) := by
        show (jsonStringLit k ++ ':' :: ' ' :: jsonStringLit v) ++ '}' :: r = _
        simp [List.append_assoc]
      rw [e1, parseJsonMembers.eq_def]
      dsimp only
      rw [skipWs_stringLit_append k _ hk, parseJsonString_lit k _ hk]
      simp only [Option.bind_eq_bind, Option.some_bind]
      rw [skipWs_cons_not_ws ':' _ (by decide), expectChar_cons]
      simp only [Option.some_bind]
      rw [skipWs_cons_ws ' ' _ (by decide), skipWs_stringLit_append v _ hv,
        parseJsonString_lit v _ hv]
      simp only [Option.some_bind]
      rw [skipWs_cons_not_ws '}' _ (by decide)]
      dsimp only
      rw [if_neg (by decide), if_pos rfl]
    | cons p2 rest' =>
      have e2 : jsonMembers ((k, v) :: p2 :: rest') ++ '}' :: r =
          jsonStringLit k ++ (':' :: ' ' ::
            (jsonStringLit v ++ (',' :: ' ' :: (jsonMembers (p2 :: rest') ++ '}' :: r)))) := by
        show (jsonStringLit k ++ ':' :: ' ' :: jsonStringLit v ++ ',' :: ' ' ::
          jsonMembers (p2 :: rest')) ++ '}' :: r = _
        simp [List.append_assoc]
      obtain ⟨f', rfl⟩ : ∃ f', f = f' + 1 := ⟨f - 1, by simp at hlen; omega⟩
      rw [e2, parseJsonMembers.eq_def]
      dsimp only
      rw [skipWs_stringLit_append k _ hk, parseJsonString_lit k _ hk]
      simp only [Option.bind_eq_bind, Option.some_bind]
      rw [skipWs_cons_not_ws ':' _ (by decide), expectChar_cons]
      simp only [Option.some_bind]
      rw [skipWs_cons_ws ' ' _ (by decide), skipWs_stringLit_append v _ hv,
        parseJsonString_lit v _ hv]
      simp only [Option.some_bind]
      rw [skipWs_cons_not_ws ',' _ (by decide)]
      dsimp only
      rw [if_pos rfl, parseJsonMembers_ws f' ' ' _ (by decide),
        ih f' r (by simp) (by simp at hlen ⊢; omega)
          (fun p hp => hplain p (List.mem_cons_of_mem _ hp))]
      rfl

/-- A nonempty member list starts with the first key's literal. -/
theorem jsonMembers_cons_eq (k v : List Char) (rest : List (List Char × List Char)) :
    ∃ t, jsonMembers ((k, v) :: rest) = jsonStringLit k ++ t := by
  cases rest with
  | nil => exact ⟨_, rfl⟩
  | cons p rest' =>
    exact ⟨(':' :: ' ' :: jsonStringLit v) ++ (',' :: ' ' :: jsonMembers (p :: rest')),
      List.append_assoc _ _ _⟩

/-- Members take at least one character each to print. -/
theorem jsonMembers_length_ge (pairs : List (List Char × List Char)) :
    pairs.length ≤ (jsonMembers pairs).length + 1 := by
  induction pairs with
  | nil => simp
  | cons kv rest ih =>
    obtain ⟨k, v⟩ := kv
    cases rest with
    | nil => simp [jsonMembers]
    | cons p2 rest' =>
      have e : jsonMembers ((k, v) :: p2 :: rest') = jsonStringLit k ++ ':' :: ' ' ::
          jsonStringLit v ++ ',' :: ' ' :: jsonMembers (p2 :: rest') := rfl
      rw [e]
      simp only [List.length_cons, List.length_append] at ih ⊢
      omega

/-- `json.loads` reads back the object `json.dumps` printed, for a
nonempty member list with plain keys and values. -/
theorem parseJsonObject_dumps (pairs : List (List Char × List Char)) (hne : pairs ≠ [])
    (hplain : ∀ p ∈ pairs,
      (∀ c ∈ p.1, jsonPlainChar c = true) ∧ (∀ c ∈ p.2, jsonPlainChar c = true)) :
    parseJsonObject (jsonDumpsPairs pairs) = some pairs := by
  cases pairs with
  | nil => exact absurd rfl hne
  | cons kv rest =>
    obtain ⟨k, v⟩ := kv
    have hk := (hplain (k, v) (List.mem_cons_self _ _)).1
    obtain ⟨t, ht⟩ := jsonMembers_cons_eq k v rest
    have hu : ∃ u, jsonMembers ((k, v) :: rest) = '"' :: u := by
      rw [ht, jsonStringLit_plain k hk, List.cons_append]
      exact ⟨_, rfl⟩
    obtain ⟨u, hu⟩ := hu
    unfold parseJsonObject
    show (match skipWs (jsonDumpsPairs ((k, v) :: rest)) with
      | c :: r =>
        if c = '{' then
          match skipWs r with
          | c2 :: r2 =>
            if c2 = '}' then (if skipWs r2 = [] then some [] else none)
            else
              match parseJsonMembers (jsonDumpsPairs ((k, v) :: rest)).length (c2 :: r2) with
              | some (ps, r1) => if skipWs r1 = [] then some ps else none
              | none => none
          | [] => none
        else none
      | [] => none) = some ((k, v) :: rest)
    have e0 : jsonDumpsPairs ((k, v) :: rest) =
        '{' :: (jsonMembers ((k, v) :: rest) ++ ['}']) := rfl
    have hlen0 : (jsonDumpsPairs ((k, v) :: rest)).length =
        ((jsonMembers ((k, v) :: rest)).length + 1) + 1 := by
      rw [e0]; simp
    rw [e0, skipWs_cons_not_ws '{' _ (by decide)]
    dsimp only
    rw [if_pos rfl, hu, List.cons_append, skipWs_cons_not_ws '"' _ (by decide)]
    dsimp only
    rw [if_neg (by decide)]
    rw [← List.cons_append, ← hu]
    have harg : jsonMembers ((k, v) :: rest) ++ ['}'] =
        jsonMembers ((k, v) :: rest) ++ '}' :: [] := rfl
    rw [← e0, hlen0, harg,
      parseJsonMembers_dumps ((k, v) :: rest) ((jsonMembers ((k, v) :: rest)).length + 1) []
        (by simp) (by have := jsonMembers_length_ge ((k, v) :: rest); omega) hplain]
    rfl

/-- Decoding inverts the sextet character table (bounded check). -/
theorem b64DecChar_enc_all : ∀ n < 64, b64DecChar (b64EncChar n) = some n := by decide

/-- Decoding inverts the sextet character table. -/
theorem b64DecChar_enc (n : Nat) (h : n < 64) : b64DecChar (b64EncChar n) = some n :=
  b64DecChar_enc_all n h

/-- No sextet encodes to the padding character (bounded check). -/
theorem b64EncChar_ne_pad_all : ∀ n < 64, b64EncChar n ≠ '=' := by decide

/-- No sextet encodes to the padding character. -/
theorem b64EncChar_ne_pad (n : Nat) (h : n < 64) : b64EncChar n ≠ '=' :=
  b64EncChar_ne_pad_all n h

/-- `urlsafe_b64decode` inverts `urlsafe_b64encode` on byte strings. -/
theorem b64decode_encode : ∀ (bs : List Nat), (∀ x ∈ bs, x < 256) →
    b64decode (b64encode bs) = some bs
  | [], _ => rfl
  | [a], h => by
    have ha : a < 256 := h a (List.mem_cons_self a [])
    show b64decode [b64EncChar (a / 4), b64EncChar (a % 4 * 16), '=', '='] = some [a]
    rw [b64decode.eq_def]
    dsimp only
    rw [if_pos ⟨rfl, rfl, rfl⟩, b64DecChar_enc _ (by omega), b64DecChar_enc _ (by omega)]
    simp only [Option.bind_eq_bind, Option.some_bind, Option.some.injEq, List.cons.injEq,
      and_true]
    omega
  | [a, b], h => by
    have ha : a < 256 := h a (by simp)
    have hb : b < 256 := h b (by simp)
    show b64decode [b64EncChar (a / 4), b64EncChar (a % 4 * 16 + b / 16),
      b64EncChar (b % 16 * 4), '='] = some [a, b]
    rw [b64decode.eq_def]
    dsimp only
    rw [if_neg (fun hcon => b64EncChar_ne_pad (b % 16 * 4) (by omega) hcon.1),
      if_pos ⟨rfl, rfl⟩, b64DecChar_enc _ (by omega), b64DecChar_enc _ (by omega),
      b64DecChar_enc _ (by omega)]
    simp only [Option.bind_eq_bind, Option.some_bind, Option.some.injEq, List.cons.injEq,
      and_true]
    constructor
    · omega
    · omega
  | a :: b :: c :: rest, h => by
    have ha : a < 256 := h a (by simp)
    have hb : b < 256 := h b (by simp)
    have hc : c < 256 := h c (by simp)
    show b64decode (b64EncChar (a / 4) :: b64EncChar (a % 4 * 16 + b / 16) ::
      b64EncChar (b % 16 * 4 + c / 64) :: b64EncChar (c % 64) :: b64encode rest) =
      some (a :: b :: c :: rest)
    rw [b64decode.eq_def]
    dsimp only
    rw [if_neg (fun hcon => b64EncChar_ne_pad (b % 16 * 4 + c / 64) (by omega) hcon.1),
      if_neg (fun hcon => b64EncChar_ne_pad (c % 64) (by omega) hcon.1),
      b64DecChar_enc _ (by omega), b64DecChar_enc _ (by omega),
      b64DecChar_enc _ (by omega), b64DecChar_enc _ (by omega),
      b64decode_encode rest (fun x hx => h x (by simp [hx]))]
    simp only [Option.bind_eq_bind, Option.some_bind, Option.some.injEq, List.cons.injEq,
      and_true]
    refine ⟨by omega, by omega, by omega⟩

/-- UTF-8 decoding inverts encoding on ASCII character lists. -/
theorem asciiDecode_encode (l : List Char) (h : ∀ c ∈ l, c.toNat < 128) :
    asciiDecode (asciiEncode l) = some l := by
  unfold asciiDecode asciiEncode
  rw [if_pos]
  · congr 1
    rw [List.map_map]
    exact List.map_congr_left (fun c _ => Char.ofNat_toNat c) |>.trans (List.map_id l)
  · rw [List.all_eq_true]
    intro x hx
    obtain ⟨c, hcl, rfl⟩ := List.mem_map.mp hx
    simpa using h c hcl

/-- Looking up `"id"` in the decoded cursor object. -/
theorem jsonLookup_cursor_id (iso tid : List Char) :
    jsonLookup [("created_at".data, iso), ("id".data, tid)] "id".data = some tid := rfl

/-- Looking up `"created_at"` in the decoded cursor object. -/
theorem jsonLookup_cursor_created (iso tid : List Char) :
    jsonLookup [("created_at".data, iso), ("id".data, tid)] "created_at".data = some iso := rfl

/-- Plain characters are ASCII. -/
theorem ascii_of_plain (c : Char) (h : jsonPlainChar c = true) : c.toNat < 128 := by
  simp only [jsonPlainChar, decide_eq_true_eq] at h
  omega

/-- ASCII-ness is preserved by append. -/
theorem ascii_append (X Y : List Char) (hX : ∀ c ∈ X, c.toNat < 128)
    (hY : ∀ c ∈ Y, c.toNat < 128) : ∀ c ∈ X ++ Y, c.toNat < 128 := by
  intro c hc
  rcases List.mem_append.mp hc with h | h
  exacts [hX c h, hY c h]

/-- ASCII-ness is preserved by cons. -/
theorem ascii_cons (x : Char) (Y : List Char) (hx : x.toNat < 128)
    (hY : ∀ c ∈ Y, c.toNat < 128) : ∀ c ∈ x :: Y, c.toNat < 128 := by
  intro c hc
  rcases List.mem_cons.mp hc with h | h
  · subst h; exact hx
  · exact hY c h

/-- A plain string's literal is ASCII. -/
theorem jsonStringLit_ascii (s : List Char) (h : ∀ c ∈ s, jsonPlainChar c = true) :
    ∀ c ∈ jsonStringLit s, c.toNat < 128 := by
  rw [jsonStringLit_plain s h]
  refine ascii_cons _ _ (by decide) (ascii_append _ _ (fun c hc => ascii_of_plain c (h c hc)) ?_)
  intro c hc
  simp only [List.mem_singleton] at hc
  subst hc; decide

/-- Members printed from plain keys and values are ASCII. -/
theorem jsonMembers_ascii : ∀ (pairs : List (List Char × List Char)),
    (∀ p ∈ pairs, (∀ c ∈ p.1, jsonPlainChar c = true) ∧ (∀ c ∈ p.2, jsonPlainChar c = true)) →
    ∀ c ∈ jsonMembers pairs, c.toNat < 128 := by
  intro pairs
  induction pairs with
  | nil => intro _ c hc; exact absurd hc (List.not_mem_nil c)
  | cons kv rest ih =>
    intro hplain
    obtain ⟨k, v⟩ := kv
    have hk := (hplain (k, v) (List.mem_cons_self _ _)).1
    have hv := (hplain (k, v) (List.mem_cons_self _ _)).2
    cases rest with
    | nil =>
      show ∀ c ∈ jsonStringLit k ++ ':' :: ' ' :: jsonStringLit v, c.toNat < 128
      exact ascii_append _ _ (jsonStringLit_ascii k hk)
        (ascii_cons _ _ (by decide) (ascii_cons _ _ (by decide) (jsonStringLit_ascii v hv)))
    | cons p2 rest' =>
      show ∀ c ∈ (jsonStringLit k ++ ':' :: ' ' :: jsonStringLit v) ++
        ',' :: ' ' :: jsonMembers (p2 :: rest'), c.toNat < 128
      refine ascii_append _ _ (ascii_append _ _ (jsonStringLit_ascii k hk)
        (ascii_cons _ _ (by decide) (ascii_cons _ _ (by decide) (jsonStringLit_ascii v hv)))) ?_
      exact ascii_cons _ _ (by decide) (ascii_cons _ _ (by decide)
        (ih (fun p hp => hplain p (List.mem_cons_of_mem _ hp))))

/-- `json.dumps` output for plain keys and values is ASCII. -/
theorem jsonDumpsPairs_ascii (pairs : List (List Char × List Char))
    (h : ∀ p ∈ pairs, (∀ c ∈ p.1, jsonPlainChar c = true) ∧ (∀ c ∈ p.2, jsonPlainChar c = true)) :
    ∀ c ∈ jsonDumpsPairs pairs, c.toNat < 128 := by
  show ∀ c ∈ ('{' :: jsonMembers pairs) ++ ['}'], c.toNat < 128
  refine ascii_append _ _ (ascii_cons _ _ (by decide) (jsonMembers_ascii pairs h)) ?_
  intro c hc
  simp only [List.mem_singleton] at hc
  subst hc; decide

/-- **C8** — the cursor codec roundtrip: for every canonical UUID string and
valid timezone-aware datetime, `decode_cursor (encode_cursor tid dt)`
succeeds and returns exactly the pair. -/
theorem c8_cursor_roundtrip (tid : String) (dt : PyDatetime)
    (htid : isCanonicalUuidString tid = true) (hdt : dt.Valid)
    (haware : dt.tzoffset.isSome = true) :
    decode_cursor (encode_cursor tid dt) = some ⟨tid, dt⟩ := by
  clear haware
  have hisoP := isoformat_plain dt hdt
  have htidP := uuidString_plain tid htid
  have hplain : ∀ p ∈ [("created_at".data, isoformatChars dt), ("id".data, tid.data)],
      (∀ c ∈ p.1, jsonPlainChar c = true) ∧ (∀ c ∈ p.2, jsonPlainChar c = true) := by
    intro p hp
    rcases List.mem_cons.mp hp with h | h
    · subst h
      refine ⟨?_, hisoP⟩
      show ∀ c ∈ "created_at".data, jsonPlainChar c = true
      decide
    · rcases List.mem_cons.mp h with h | h
      · subst h
        refine ⟨?_, htidP⟩
        show ∀ c ∈ "id".data, jsonPlainChar c = true
        decide
      · exact absurd h (List.not_mem_nil p)
  have hascii := jsonDumpsPairs_ascii _ hplain
  have hbytes : ∀ x ∈ asciiEncode
      (jsonDumpsPairs [("created_at".data, isoformatChars dt), ("id".data, tid.data)]), x < 256 := by
    intro x hx
    obtain ⟨c, hcl, rfl⟩ := List.mem_map.mp hx
    have := hascii c hcl
    omega
  unfold encode_cursor decode_cursor
  dsimp only
  rw [b64decode_encode _ hbytes]
  simp only [Option.bind_eq_bind, Option.some_bind]
  rw [asciiDecode_encode _ hascii]
  simp only [Option.some_bind]
  rw [parseJsonObject_dumps _ (by simp) hplain]
  simp only [Option.some_bind]
  rw [jsonLookup_cursor_id, jsonLookup_cursor_created]
  simp only [Option.some_bind]
  rw [fromiso_isoformat dt hdt]
  simp only [Option.some_bind]

set_option maxRecDepth 8192 in
/-- Witness for C8: the concrete UUID `123e4567-e89b-12d3-a456-426614174000`
and aware timestamp `2024-01-15T10:30:00+00:00` produce exactly the cursor
CPython produces, and decoding returns the pair unchanged. -/
theorem c8_witness :
    isCanonicalUuidString "123e4567-e89b-12d3-a456-426614174000" = true ∧
    PyDatetime.Valid ⟨2024, 1, 15, 10, 30, 0, 0, some 0⟩ ∧
    (⟨2024, 1, 15, 10, 30, 0, 0, some 0⟩ : PyDatetime).tzoffset.isSome = true ∧
    encode_cursor "123e4567-e89b-12d3-a456-426614174000" ⟨2024, 1, 15, 10, 30, 0, 0, some 0⟩ =
      "eyJjcmVhdGVkX2F0IjogIjIwMjQtMDEtMTVUMTA6MzA6MDArMDA6MDAiLCAiaWQiOiAiMTIzZTQ1NjctZTg5Yi0xMmQzLWE0NTYtNDI2NjE0MTc0MDAwIn0=" ∧
    decode_cursor (encode_cursor "123e4567-e89b-12d3-a456-426614174000"
        ⟨2024, 1, 15, 10, 30, 0, 0, some 0⟩) =
      some ⟨"123e4567-e89b-12d3-a456-426614174000", ⟨2024, 1, 15, 10, 30, 0, 0, some 0⟩⟩ := by
  have hv : PyDatetime.Valid ⟨2024, 1, 15, 10, 30, 0, 0, some 0⟩ :=
    ⟨by decide, by decide, by decide, by decide, by decide, by decide, by decide, by decide,
      by decide, by decide, fun o ho => by injection ho with h; subst h; decide⟩
  refine ⟨by decide, hv, by decide, by decide, ?_⟩
  exact c8_cursor_roundtrip "123e4567-e89b-12d3-a456-426614174000"
    ⟨2024, 1, 15, 10, 30, 0, 0, some 0⟩ (by decide) hv (by decide)

/-- Sorted descending with pairwise-distinct keys is strictly sorted. -/
theorem sorted_strict_of_distinct (l : List Tx) (hs : List.Sorted txDescLe l)
    (hd : l.Pairwise fun a b => txKey a ≠ txKey b) : l.Pairwise txKeyGT := by
  have hps : l.Pairwise txDescLe := hs
  exact (hps.and hd).imp (fun h => lt_of_le_of_ne h.1 (Ne.symm h.2))

/-- Key inequality is symmetric. -/
theorem txKeyNe_symm : ∀ {a b : Tx}, txKey a ≠ txKey b → txKey b ≠ txKey a :=
  fun h => h.symm

/-- Filtering commutes with the canonical sort on key-distinct rows
(insertion sort is a sort, so both sides are the sorted filtered rows;
distinct keys make that list unique). -/
theorem sortCanonical_filter (l : List Tx) (p : Tx → Bool)
    (hd : l.Pairwise fun a b => txKey a ≠ txKey b) :
    sortCanonical (l.filter p) = (sortCanonical l).filter p := by
  have hperm : List.Perm (sortCanonical (l.filter p)) ((sortCanonical l).filter p) :=
    (List.perm_insertionSort txDescLe (l.filter p)).trans
      (((List.perm_insertionSort txDescLe l).filter p).symm)
  have hdl : (l.filter p).Pairwise (fun a b => txKey a ≠ txKey b) := hd.filter p
  have hd1 : (sortCanonical (l.filter p)).Pairwise (fun a b => txKey a ≠ txKey b) :=
    ((List.perm_insertionSort txDescLe (l.filter p)).pairwise_iff
      (fun h => txKeyNe_symm h)).mpr hdl
  have hd2 : (sortCanonical l).Pairwise (fun a b => txKey a ≠ txKey b) :=
    ((List.perm_insertionSort txDescLe l).pairwise_iff (fun h => txKeyNe_symm h)).mpr hd
  have hs1 : List.Sorted txDescLe (sortCanonical (l.filter p)) :=
    List.sorted_insertionSort txDescLe (l.filter p)
  have hs2 : List.Sorted txDescLe ((sortCanonical l).filter p) :=
    (List.sorted_insertionSort txDescLe l).filter p
  exact List.eq_of_perm_of_sorted hperm
    (sorted_strict_of_distinct _ hs1 hd1)
    (sorted_strict_of_distinct _ hs2 (hd2.filter p))

/-- On a strictly descending list, `limit < length` iff some element lies
strictly after the last element of the first `limit` entries. -/
theorem strict_take_last_more (S : List Tx) (limit : Nat) (tl : Tx)
    (hstrict : S.Pairwise txKeyGT) (hlim : 1 ≤ limit)
    (hlast : (S.take limit).getLast? = some tl) :
    limit < S.length ↔ ∃ t ∈ S, txKey t < txKey tl := by
  have hidx := List.getLast?_eq_getElem? (S.take limit)
  rw [hlast] at hidx
  obtain ⟨hm, hgl⟩ := List.getElem?_eq_some.mp hidx.symm
  have hmlen : (List.take limit S).length = min limit S.length := List.length_take limit S
  have hklt : (List.take limit S).length - 1 < S.length := by
    rw [hmlen] at hm ⊢
    omega
  have htl : tl = S[(List.take limit S).length - 1] := by
    rw [← hgl]
    exact List.getElem_take S
  have hpg := List.pairwise_iff_getElem.mp hstrict
  constructor
  · intro hlt
    refine ⟨S[limit], List.mem_iff_getElem.mpr ⟨limit, hlt, rfl⟩, ?_⟩
    rw [htl]
    refine hpg _ limit hklt hlt ?_
    rw [hmlen]
    omega
  · rintro ⟨t, htS, hkt⟩
    by_contra hnlt
    have hlen : S.length ≤ limit := by omega
    have hk1 : (List.take limit S).length - 1 = S.length - 1 := by
      rw [hmlen]
      omega
    obtain ⟨j, hj, rfl⟩ := List.mem_iff_getElem.mp htS
    rcases Nat.lt_or_ge j (S.length - 1) with hjlt | hjge
    · have hgt := hpg j ((List.take limit S).length - 1) hj hklt (by omega)
      rw [← htl] at hgt
      exact absurd hkt (lt_asymm hgt)
    · have hj1 : j = (List.take limit S).length - 1 := by omega
      subst hj1
      rw [htl] at hkt
      exact absurd hkt (lt_irrefl _)

/-- **C3** — keyset listing: with a decodable cursor whose id parses as a
UUID, `get_by_user_id_cursor` returns exactly the first `limit` records, in
`(created_at DESC, id DESC)` order, of the user's filtered records strictly
after the cursor position, and `has_more` is true iff a matching record
exists strictly after the last returned record. -/
theorem c3_keyset_listing (db : List Tx) (user_id : String)
    (filters : Option TransactionFilter) (c : String) (limit : Nat)
    (cur : Cursor) (cid : Nat)
    (hdec : decode_cursor c = some cur) (hid : pyUuidParse cur.id = some cid)
    (hlim : 1 ≤ limit)
    (hids : db.Pairwise fun a b => a.id ≠ b.id)
    (hbnd : ∀ t ∈ db, t.id < 2 ^ 128) :
    ∃ rows has_more,
      get_by_user_id_cursor db user_id filters (some c) limit = some (rows, has_more) ∧
      rows = ((sortCanonical (db.filter (rowMatches user_id filters))).filter
        (cursorPred cur.created_at.instant cid)).take limit ∧
      (rows = [] → has_more = false) ∧
      (∀ tl, rows.getLast? = some tl →
        (has_more = true ↔ ∃ t ∈ db, rowMatches user_id filters t = true ∧
          cursorPred cur.created_at.instant cid t = true ∧ txKey t < txKey tl)) := by
  have hkeys : db.Pairwise fun a b => txKey a ≠ txKey b := by
    refine hids.imp_of_mem ?_
    intro a b ha hb hne heq
    apply hne
    have hba := hbnd a ha
    have hbb := hbnd b hb
    unfold txKey at heq
    have h2 : (2 : Int) ^ 128 = 340282366920938463463374607431768211456 := by norm_num
    rw [h2] at heq
    omega
  set base := db.filter (rowMatches user_id filters) with hbase
  have hKbase : base.Pairwise fun a b => txKey a ≠ txKey b := hkeys.filter _
  have hcomm := sortCanonical_filter base (cursorPred cur.created_at.instant cid) hKbase
  set S := (sortCanonical base).filter (cursorPred cur.created_at.instant cid) with hSdef
  have htake : (S.take (limit + 1)).take limit = S.take limit := by
    rw [List.take_take]
    congr 1
    omega
  have hres : get_by_user_id_cursor db user_id filters (some c) limit =
      some (S.take limit, decide (limit < (S.take (limit + 1)).length)) := by
    unfold get_by_user_id_cursor
    dsimp only
    rw [hdec]
    dsimp only
    rw [hid]
    dsimp only
    rw [← hbase, hcomm, htake]
  have hKsorted : (sortCanonical base).Pairwise fun a b => txKey a ≠ txKey b :=
    ((List.perm_insertionSort txDescLe base).pairwise_iff (fun h => txKeyNe_symm h)).mpr hKbase
  have hSstrict : S.Pairwise txKeyGT :=
    sorted_strict_of_distinct _ ((List.sorted_insertionSort txDescLe base).filter _)
      (hKsorted.filter _)
  have hmemS : ∀ t, t ∈ S ↔ t ∈ db ∧ rowMatches user_id filters t = true ∧
      cursorPred cur.created_at.instant cid t = true := by
    intro t
    have hperm : List.Perm (sortCanonical base) base := List.perm_insertionSort txDescLe base
    rw [hSdef, List.mem_filter, hperm.mem_iff, hbase, List.mem_filter]
    tauto
  refine ⟨S.take limit, decide (limit < (S.take (limit + 1)).length), hres, rfl, ?_, ?_⟩
  · intro hnil
    have hSnil : S = [] := by
      rcases List.take_eq_nil_iff.mp hnil with h | h
      · omega
      · exact h
    rw [hSnil]
    simp
  · intro tl hlast
    have hiff := strict_take_last_more S limit tl hSstrict hlim hlast
    rw [List.length_take]
    simp only [decide_eq_true_eq]
    constructor
    · intro hlt
      obtain ⟨t, htS, hkt⟩ := hiff.mp (by omega)
      obtain ⟨htdb, hrm, hcp⟩ := (hmemS t).mp htS
      exact ⟨t, htdb, hrm, hcp, hkt⟩
    · rintro ⟨t, htdb, hrm, hcp, hkt⟩
      have hlt := hiff.mpr ⟨t, (hmemS t).mpr ⟨htdb, hrm, hcp⟩, hkt⟩
      omega

set_option maxRecDepth 16384 in
/-- Witness for C3: a three-row store for user `u1`, a cursor at the middle
row (id 7, created 10:30:30), limit 1.  The one record strictly after the
cursor is returned and `has_more` is `false`; every hypothesis of the
theorem is checked by evaluation, and the full pipeline result is also
evaluated directly. -/
theorem c3_witness :
    decode_cursor (encode_cursor "00000000-0000-0000-0000-000000000007" (dt2024 30)) =
      some ⟨"00000000-0000-0000-0000-000000000007", dt2024 30⟩ ∧
    pyUuidParse "00000000-0000-0000-0000-000000000007" = some 7 ∧
    (1 : Nat) ≤ 1 ∧
    [sampleTx 5 "u1" 10, sampleTx 7 "u1" 30, sampleTx 9 "u1" 30].Pairwise
      (fun a b => a.id ≠ b.id) ∧
    (∀ t ∈ [sampleTx 5 "u1" 10, sampleTx 7 "u1" 30, sampleTx 9 "u1" 30], t.id < 2 ^ 128) ∧
    get_by_user_id_cursor [sampleTx 5 "u1" 10, sampleTx 7 "u1" 30, sampleTx 9 "u1" 30] "u1"
      none (some (encode_cursor "00000000-0000-0000-0000-000000000007" (dt2024 30))) 1 =
      some ([sampleTx 5 "u1" 10], false) ∧
    (∃ rows has_more,
      get_by_user_id_cursor [sampleTx 5 "u1" 10, sampleTx 7 "u1" 30, sampleTx 9 "u1" 30] "u1"
        none (some (encode_cursor "00000000-0000-0000-0000-000000000007" (dt2024 30))) 1 =
        some (rows, has_more) ∧
      rows = ((sortCanonical ([sampleTx 5 "u1" 10, sampleTx 7 "u1" 30,
        sampleTx 9 "u1" 30].filter (rowMatches "u1" none))).filter
        (cursorPred (dt2024 30).instant 7)).take 1 ∧
      (rows = [] → has_more = false) ∧
      (∀ tl, rows.getLast? = some tl →
        (has_more = true ↔ ∃ t ∈ [sampleTx 5 "u1" 10, sampleTx 7 "u1" 30, sampleTx 9 "u1" 30],
          rowMatches "u1" none t = true ∧
          cursorPred (dt2024 30).instant 7 t = true ∧ txKey t < txKey tl))) := by
  refine ⟨by decide, by decide, by decide, by decide, by decide, by decide, ?_⟩
  exact c3_keyset_listing [sampleTx 5 "u1" 10, sampleTx 7 "u1" 30, sampleTx 9 "u1" 30] "u1"
    none (encode_cursor "00000000-0000-0000-0000-000000000007" (dt2024 30)) 1
    ⟨"00000000-0000-0000-0000-000000000007", dt2024 30⟩ 7
    (by decide) (by decide) (by decide) (by decide) (by decide)
